import Mathlib

/-!
Verification development for the M*LIB dynamic string module (m-string.h).

Modelling conventions, fixed once for the whole file:
* the target platform is x86-64 Linux (LP64): size_t is 64 bits, the char
  type is signed, memory is little-endian, and glibc supplies the C locale
  for isprint (printable bytes are exactly 0x20 to 0x7E; bytes at or above
  0x80 reach isprint as negative int values and are classified not
  printable);
* a byte is a Nat below 256; the contents of a C string (the bytes before
  its terminating NUL) are a List Nat of nonzero bytes;
* size_t arithmetic is Nat arithmetic reduced modulo 2 to the 64 wherever
  the C computation can wrap;
* signed char values are Int; the arithmetic right shift that gcc and
  clang generate for a negative signed operand is floor division by a
  power of two.

Set-like C idioms become explicit state passing; fallible paths (the
fatal out-of-memory exits) become Option, with none marking the fatal
exit through the global out-of-memory handler.
-/

/-! ## Byte and machine-integer helpers -/

/-- Value of a byte reinterpreted as a signed char and promoted to int,
on a platform where char is signed and 8 bits wide. -/
def m_char_of_byte (b : Nat) : Int :=
  if b < 128 then (b : Int) else (b : Int) - 256

/-- Arithmetic right shift of a (possibly negative) int by n bits, as
generated by gcc and clang for the C right shift on signed operands:
floor division by a power of two. -/
def m_sar (c : Int) (n : Nat) : Int :=
  Int.fdiv c (2 ^ n)

/-- C bitwise AND of an int with the mask 0x07: on a two's complement
machine this is the nonnegative remainder modulo 8, for negative
operands included. -/
def m_and7 (x : Int) : Nat :=
  (Int.emod x 8).toNat

/-- Printability test of a byte in the C locale of glibc with a signed
char type: bytes 0x20 to 0x7E are printable, control bytes and every
byte at or above 0x7F are not (bytes at or above 0x80 are passed to
isprint as negative values and map to not printable). -/
def m_isprint (c : Nat) : Bool :=
  32 ≤ c && c ≤ 126

/-- Length of a C string stored in a buffer modelled as a list of bytes:
the number of bytes before the first NUL byte; reads past the end of the
physical list yield 0 (uninitialized memory modelled as zero). -/
def m_strlen : List Nat → Nat
  | [] => 0
  | b :: rest => if b = 0 then 0 else m_strlen rest + 1

/-- Read n bytes starting at the head of a buffer; bytes past the end of
the physical list read as 0. -/
def m_memread (buf : List Nat) (n : Nat) : List Nat :=
  (List.range n).map (fun i => buf.getD i 0)

/-- C strcmp on two NUL-terminated buffers (comparison is by unsigned
char value, and our bytes are already unsigned values). -/
def m_strcmp : List Nat → List Nat → Int
  | [], [] => 0
  | [], y :: _ => if y = 0 then 0 else -(y : Int)
  | x :: _, [] => if x = 0 then 0 else (x : Int)
  | x :: xs, y :: ys =>
    if x ≠ y then (x : Int) - (y : Int)
    else if x = 0 then 0
    else m_strcmp xs ys

/-- Little-endian decoding of a list of bytes into a natural number. -/
def m_le_decode (l : List Nat) : Nat :=
  l.foldr (fun b acc => b + 256 * acc) 0

/-- Little-endian encoding of a natural number into 8 bytes (a size_t
field on an LP64 platform). -/
def m_le_encode8 (n : Nat) : List Nat :=
  (List.range 8).map (fun i => n / 256 ^ i % 256)

/-! ## Quoted-escape text codec (string_get_str and string_parse_str)

The two functions walk over string contents byte by byte; the embedding
models the text they emit and consume, with string contents as byte
lists.  Capacity bookkeeping (the interleaved fit2size calls) moves the
buffer but never alters emitted bytes, so it does not appear at this
level; it is modelled separately with the representation layer below. -/

/-- Escape table of string_get_str: the 7 characters of the C literal
holding space, t, n, double quote, space, r, backslash; index 7 reads
the terminating NUL of the literal. -/
def M_STR1NG_GET_STR_TAB : List Nat :=
  [32, 116, 110, 34, 32, 114, 92]

/-- Unescape table of string_parse_str: the 8 characters of the C
literal holding space, CR, space, double quote, space, LF, backslash,
TAB. -/
def M_STR1NG_PARSE_STR_TAB : List Nat :=
  [32, 13, 32, 34, 32, 10, 92, 9]

/-- Bytes emitted by the loop body of string_get_str for one content
byte c: the five special bytes backslash, double quote, LF, TAB, CR
become a backslash plus the table entry at index (c xor (c shr 5)) land
7; other non-printable bytes become a backslash plus three octal digits
computed from the signed char value of the byte (int promotion of a
signed char, with arithmetic shifts); printable bytes pass through. -/
def m_str1ng_get_str_char (c : Nat) : List Nat :=
  if c = 92 ∨ c = 34 ∨ c = 10 ∨ c = 9 ∨ c = 13 then
    [92, M_STR1NG_GET_STR_TAB.getD ((c ^^^ (c >>> 5)) &&& 7) 0]
  else if ¬ m_isprint c then
    let ci : Int := m_char_of_byte c
    let d1 : Nat := m_and7 ci
    let d2 : Nat := m_and7 (m_sar ci 3)
    let d3 : Nat := m_and7 (m_sar ci 6)
    [92, 48 + d3, 48 + d2, 48 + d1]
  else
    [c]

/-- Text produced by string_get_str with append = false for string
contents v2: an opening double quote, the escaped body, a closing
double quote. -/
def string_get_str (v2 : List Nat) : List Nat :=
  34 :: v2.flatMap m_str1ng_get_str_char ++ [34]

/-- Main loop of string_parse_str: reads bytes until a closing double
quote (success) or the terminating NUL (failure); a backslash introduces
either a two-character escape decoded through the unescape table or
exactly three octal digits; the decoded byte is pushed onto the
accumulated contents v (string_push_back of the char conversion of the
decoded int, hence the reduction modulo 256). -/
def m_str1ng_parse_str_loop : List Nat → List Nat → Option (List Nat)
  | [], _ => none
  | c :: str, v =>
    if c = 34 then some v
    else if c = 0 then none
    else if c = 92 then
      -- escape sequence: further reads use headD 0, modelling that the C
      -- loop reads the terminating NUL byte (value 0) past the contents,
      -- which then fails every digit test below
      if str.headD 0 = 110 ∨ str.headD 0 = 116 ∨ str.headD 0 = 114 ∨
          str.headD 0 = 92 ∨ str.headD 0 = 34 then
        m_str1ng_parse_str_loop str.tail
          (v ++ [M_STR1NG_PARSE_STR_TAB.getD
                  ((str.headD 0 ^^^ (str.headD 0 >>> 5)) &&& 7) 0])
      else if 48 ≤ str.headD 0 ∧ str.headD 0 ≤ 55 then
        if 48 ≤ str.tail.headD 0 ∧ str.tail.headD 0 ≤ 55 then
          if 48 ≤ str.tail.tail.headD 0 ∧ str.tail.tail.headD 0 ≤ 55 then
            m_str1ng_parse_str_loop str.tail.tail.tail
              (v ++ [((str.headD 0 - 48) * 64 + (str.tail.headD 0 - 48) * 8 +
                      (str.tail.tail.headD 0 - 48)) % 256])
          else none
        else none
      else none
    else
      m_str1ng_parse_str_loop str (v ++ [c % 256])
termination_by l _ => l.length
decreasing_by
  all_goals simp
  all_goals omega

/-- string_parse_str on a NUL-terminated input modelled as the byte list
before the NUL: requires a leading double quote (an empty input reads
its NUL, which is not a quote), then runs the unescape loop on an
initially reset string; returns the parsed contents on success and none
on failure. -/
def string_parse_str (str : List Nat) : Option (List Nat) :=
  if str.headD 0 = 34 then m_str1ng_parse_str_loop str.tail [] else none

/-- Encoding of one byte as the words of claim C8 state it: the five
special bytes become their two-character escapes, every other
non-printable byte becomes a backslash followed by the three octal
digits of its value, printable bytes pass through. -/
def spec_get_str_char (c : Nat) : List Nat :=
  if c = 92 then [92, 92]
  else if c = 34 then [92, 34]
  else if c = 10 then [92, 110]
  else if c = 9 then [92, 116]
  else if c = 13 then [92, 114]
  else if ¬ (32 ≤ c ∧ c ≤ 126) then
    [92, 48 + c / 64 % 8, 48 + c / 8 % 8, 48 + c % 8]
  else [c]

/-- Encoding of one byte as amended: for bytes below 0x80 the three
octal digits spell the byte value; for bytes at or above 0x80 the
signed char promotion makes them spell the byte value plus 256. -/
def spec_get_str_char_amended (c : Nat) : List Nat :=
  if c = 92 then [92, 92]
  else if c = 34 then [92, 34]
  else if c = 10 then [92, 110]
  else if c = 9 then [92, 116]
  else if c = 13 then [92, 114]
  else if ¬ (32 ≤ c ∧ c ≤ 126) then
    let val : Nat := if c < 128 then c else c + 256
    [92, 48 + val / 64, 48 + val / 8 % 8, 48 + val % 8]
  else [c]

/-- Whole-string encoder following the claim words: opening quote,
per-byte encoding, closing quote. -/
def spec_get_str (v2 : List Nat) : List Nat :=
  34 :: v2.flatMap spec_get_str_char ++ [34]

/-- Whole-string encoder following the amended claim words. -/
def spec_get_str_amended (v2 : List Nat) : List Nat :=
  34 :: v2.flatMap spec_get_str_char_amended ++ [34]

/-! ## UTF-8 codec

The decoder is a branch-predictor friendly state machine driven by a
transition table; states are the numeric values of the C enumeration
(0, 8, 16, 24 and 32 for the error state). -/

/-- Bit length of a natural number computed with explicit fuel (32
suffices for every 32-bit value); the fuel keeps the recursion
structural. -/
def m_bitlen : Nat → Nat → Nat
  | 0, _ => 0
  | fuel + 1, x => if x = 0 then 0 else m_bitlen fuel (x / 2) + 1

/-- Modelled from the spec: m_core_clz32 lives in m-core.h, which is not
among the sources; the spec describes the classification as counting
the leading one bits of the byte (equivalently the leading zeros of the
32-bit value holding its complement), so this is the standard
count-leading-zeros of a 32-bit value, with 32 returned for 0. -/
def m_core_clz32 (x : Nat) : Nat :=
  32 - m_bitlen 32 x

/-- UTF-8 state transition table, 5 rows of 8 entries indexed by state
plus byte class; reading index 40 (error state fed with an all-ones
byte) falls on the terminating NUL of the C string literal, which getD
reproduces with its default 0. -/
def M_STRING_UTF8_STATE_TAB : List Nat :=
  [0, 32, 8, 16, 24, 32, 32, 32,
   32, 0, 32, 32, 32, 32, 32, 32,
   32, 8, 32, 32, 32, 32, 32, 32,
   32, 16, 32, 32, 32, 32, 32, 32,
   32, 32, 32, 32, 32, 32, 32, 32]

/-- One step of the UTF-8 decoder m_str1ng_utf8_decode: from the input
byte c, the current state and the running unicode accumulator, produce
the new state and accumulator.  The byte class comes from the leading
zeros of the complemented byte; mask1 zeroes the shifted accumulator
when a new sequence starts (the unsigned wraparound of UINT_MAX minus
the comparison plus one); mask2 keeps the payload bits of the byte;
the byte is promoted from signed char to unsigned int, hence the sign
extension above 0x7F, which mask2 (at most 0xFF) always discards. -/
def m_str1ng_utf8_decode (c : Nat) (state : Nat) (unicode : Nat) : Nat × Nat :=
  let type := m_core_clz32 (255 - c % 256) - 24
  let mask1 := ((2 ^ 32 - 1) - (if state ≠ 0 then 1 else 0) + 1) % 2 ^ 32
  let mask2 := 255 >>> type
  let uc := if c % 256 < 128 then c % 256 else 2 ^ 32 - 256 + c % 256
  ((M_STRING_UTF8_STATE_TAB.getD (state + type) 0),
   ((((unicode <<< 6) % 2 ^ 32) &&& mask1) ||| (uc &&& mask2)))

/-- Loop of m_str1ng_utf8_valid_str_p over the bytes of a NUL-terminated
string (the list holds the bytes before the NUL, all nonzero under the
string contract): fail on the error state, and on a completed code
point fail if it exceeds 0x10FFFF or falls in the surrogate range. -/
def m_str1ng_utf8_valid_str_p_loop : List Nat → Nat → Nat → Bool
  | [], _, _ => true
  | c :: str, state, u =>
    if (m_str1ng_utf8_decode c state u).1 = 32 ∨
        ((m_str1ng_utf8_decode c state u).1 = 0 ∧
         ((m_str1ng_utf8_decode c state u).2 > 0x10FFFF ∨
          (0xD800 ≤ (m_str1ng_utf8_decode c state u).2 ∧
           (m_str1ng_utf8_decode c state u).2 ≤ 0xDFFF))) then
      false
    else
      m_str1ng_utf8_valid_str_p_loop str (m_str1ng_utf8_decode c state u).1
        (m_str1ng_utf8_decode c state u).2

/-- m_str1ng_utf8_valid_str_p on the contents of a C string. -/
def m_str1ng_utf8_valid_str_p (str : List Nat) : Bool :=
  m_str1ng_utf8_valid_str_p_loop str 0 0

/-- The common decoding loop of m_str1ng_utf8_length and of the string
iterator, collecting the sequence of decoded code points: a code point
is produced each time the machine returns to the starting state; the
error state aborts the scan (none); a trailing incomplete sequence
produces no code point, exactly as the length function counts none for
it. -/
def m_str1ng_utf8_decode_seq_loop : List Nat → Nat → Nat → Option (List Nat)
  | [], _, _ => some []
  | c :: str, state, u =>
    if (m_str1ng_utf8_decode c state u).1 = 32 then none
    else if (m_str1ng_utf8_decode c state u).1 = 0 then
      (m_str1ng_utf8_decode_seq_loop str (m_str1ng_utf8_decode c state u).1
        (m_str1ng_utf8_decode c state u).2).map
        (fun l => (m_str1ng_utf8_decode c state u).2 :: l)
    else
      m_str1ng_utf8_decode_seq_loop str (m_str1ng_utf8_decode c state u).1
        (m_str1ng_utf8_decode c state u).2

/-- Sequence of code points decoded from the contents of a C string. -/
def m_str1ng_utf8_decode_seq (str : List Nat) : Option (List Nat) :=
  m_str1ng_utf8_decode_seq_loop str 0 0

/-- m_str1ng_utf8_encode: encode a code point into its 1 to 4 byte
UTF-8 sequence using the standard thresholds; each stored char is the
char conversion of the computed value, hence the reduction modulo
256. -/
def m_str1ng_utf8_encode (u : Nat) : List Nat :=
  if u ≤ 0x7F then
    [u % 256]
  else if u ≤ 0x7FF then
    [(0xC0 ||| (u >>> 6)) % 256,
     (0x80 ||| (u &&& 0x3F)) % 256]
  else if u ≤ 0xFFFF then
    [(0xE0 ||| (u >>> 12)) % 256,
     (0x80 ||| ((u >>> 6) &&& 0x3F)) % 256,
     (0x80 ||| (u &&& 0x3F)) % 256]
  else
    [(0xF0 ||| (u >>> 18)) % 256,
     (0x80 ||| ((u >>> 12) &&& 0x3F)) % 256,
     (0x80 ||| ((u >>> 6) &&& 0x3F)) % 256,
     (0x80 ||| (u &&& 0x3F)) % 256]

/-! ## Substring search and replace-all -/

/-- Prefix test on byte lists (the memcmp at a candidate position). -/
def m_starts_with : List Nat → List Nat → Bool
  | [], _ => true
  | _ :: _, [] => false
  | p :: ps, c :: cs => p == c && m_starts_with ps cs

/-- Model of the C library strstr used by the forward pass: index of
the first occurrence of pat in s, none when absent; the empty pattern
matches at index 0, as strstr returns its first argument for it. -/
def m_strstr : List Nat → List Nat → Option Nat
  | s, pat =>
    if m_starts_with pat s then some 0
    else
      match s with
      | [] => none
      | _ :: t => (m_strstr t pat).map (· + 1)

/-- Downward scan of m_str1ng_strstr_r from candidate start position p
toward the start of the string; the C compares the first and last
pattern bytes before the memcmp as a cheap mismatch filter, which is
semantically the single prefix comparison used here. -/
def m_str1ng_strstr_r_loop (s pat : List Nat) : Nat → Option Nat
  | 0 => if m_starts_with pat (s.drop 0) then some 0 else none
  | p + 1 =>
    if m_starts_with pat (s.drop (p + 1)) then some (p + 1)
    else m_str1ng_strstr_r_loop s pat p

/-- m_str1ng_strstr_r: position of the rightmost occurrence of the
pattern lying entirely inside s (the C is handed the pointer to the
last character and steps the candidate back by the pattern size first;
when the string is shorter than the pattern the scan loop never
runs). -/
def m_str1ng_strstr_r (s pat : List Nat) : Option Nat :=
  if s.length < pat.length then none
  else m_str1ng_strstr_r_loop s pat (s.length - pat.length)

/-- Forward pass of m_str1ng_replace_all_str_1ge2 over the content
bytes: repeatedly locate the next occurrence with strstr, keep the gap,
emit str2 and skip str1; the in-place compaction with the write cursor
trailing the read cursor is expressed as concatenation.  The loop state
s strictly shortens at every iteration, so the explicit fuel (callers
pass the content length plus one) only makes the recursion structural
and its exhaustion branch is never reached; the empty-pattern guard
mirrors the assert of the dispatcher (the C loop would not terminate on
an empty pattern). -/
def m_str1ng_replace_all_str_1ge2_loop : Nat → List Nat → List Nat → List Nat → List Nat
  | 0, _, _, s => s
  | fuel + 1, str1, str2, s =>
    if str1 = [] then s
    else
      match m_strstr s str1 with
      | none => s
      | some i =>
        s.take i ++ str2 ++
          m_str1ng_replace_all_str_1ge2_loop fuel str1 str2 (s.drop (i + str1.length))

/-- Reverse pass of m_str1ng_replace_all_str_1lo2 over the content
bytes: pre holds the still unprocessed low part of the string
(org up to src in the C) and acc the block already written at the high
end of the grown buffer; each iteration finds the rightmost occurrence
wholly inside pre, pushes the replacement followed by the gap after the
occurrence in front of acc, and continues left of the occurrence.  As
above, pre strictly shortens at every iteration, so the fuel (content
length plus one at the call site) only makes the recursion structural;
the empty-pattern guard mirrors the assert of the dispatcher. -/
def m_str1ng_replace_all_str_1lo2_loop : Nat → List Nat → List Nat → List Nat → List Nat → List Nat
  | 0, _, _, pre, acc => pre ++ acc
  | fuel + 1, str1, str2, pre, acc =>
    if str1 = [] then pre ++ acc
    else
      match m_str1ng_strstr_r pre str1 with
      | none => pre ++ acc
      | some p =>
        m_str1ng_replace_all_str_1lo2_loop fuel str1 str2 (pre.take p)
          (str2 ++ pre.drop (p + str1.length) ++ acc)

/-- Left-to-right replacement as the words of the claim state it:
scan left to right, at the first position where the non-empty pattern
matches emit the replacement and continue past the matched occurrence
(non-overlapping, first match wins), otherwise keep the byte. -/
def spec_replace_ltr (str1 str2 s : List Nat) : List Nat :=
  if h : str1 ≠ [] ∧ m_starts_with str1 s then
    str2 ++ spec_replace_ltr str1 str2 (s.drop str1.length)
  else
    match hs : s with
    | [] => []
    | c :: t => c :: spec_replace_ltr str1 str2 t
termination_by s.length
decreasing_by
  · obtain ⟨h1, h2⟩ := h
    rcases s with _ | ⟨c, t⟩
    · rcases str1 with _ | ⟨p, ps⟩
      · exact absurd rfl h1
      · simp [m_starts_with] at h2
    · rcases str1 with _ | ⟨p, ps⟩
      · exact absurd rfl h1
      · simp
        omega
  · subst hs
    simp

/-- Right-to-left replacement: replace the rightmost occurrence of the
non-empty pattern that lies wholly inside the string, then continue on
the part left of it (non-overlapping, first match from the right
wins). -/
def spec_replace_rtl (str1 str2 s : List Nat) : List Nat :=
  if n1 : str1 = [] then s
  else
    match hocc : m_str1ng_strstr_r s str1 with
    | none => s
    | some p =>
      spec_replace_rtl str1 str2 (s.take p) ++ str2 ++ s.drop (p + str1.length)
termination_by s.length
decreasing_by
  have haux : ∀ start q, m_str1ng_strstr_r_loop s str1 start = some q → q ≤ start := by
    intro start
    induction start with
    | zero =>
      intro q h
      rw [m_str1ng_strstr_r_loop] at h
      split at h
      · simp at h
        omega
      · simp at h
    | succ n ih =>
      intro q h
      rw [m_str1ng_strstr_r_loop] at h
      split at h
      · simp at h
        omega
      · exact le_trans (ih q h) (by omega)
  rw [m_str1ng_strstr_r] at hocc
  split at hocc
  · simp at hocc
  · have hle := haux _ p hocc
    have hn : str1.length ≠ 0 := by
      rcases str1 with _ | ⟨x, xs⟩
      · exact absurd rfl n1
      · simp
    simp
    omega

/-! ## Representation layer: the string_s structure

A string_t value is the 16 bytes of the union string_union_ct (which
overlays the two size_t fields of the heap view, in little-endian
order, with the 16-char stack buffer) together with the ptr field.  A
null ptr is modelled as none and is the stack-mode discriminant; a heap
allocation is modelled as the list of its bytes, reads past the
physical end of the list giving 0 (memory never written reads as
zero in this model).  On LP64, sizeof(string_heap_ct) is 16. -/
structure MString where
  u : List Nat
  ptr : Option (List Nat)

/-- Representation well-formedness coming from the C object layout:
the union is exactly 16 bytes, each below 256. -/
def m_string_wf (s : MString) : Bool :=
  s.u.length == 16 && s.u.all (fun b => b < 256) &&
  (match s.ptr with
   | none => true
   | some buf => buf.all (fun b => b < 256))

/-- m_str1ng_stack_p: the string is stack based iff its pointer field
is null. -/
def m_str1ng_stack_p (s : MString) : Bool :=
  s.ptr.isNone

/-- Conversion of a stored char to size_t on a signed-char LP64
platform: bytes at or above 0x80 sign-extend. -/
def m_size_t_of_char (b : Nat) : Nat :=
  if b < 128 then b else 2 ^ 64 - 256 + b

/-- string_size: the size is the last stack byte (a char, hence the
sign-extending conversion) in stack mode, the heap size field (union
bytes 0 to 7) in heap mode. -/
def string_size (s : MString) : Nat :=
  if m_str1ng_stack_p s then m_size_t_of_char (s.u.getD 15 0)
  else m_le_decode (s.u.take 8)

/-- string_capacity: the fixed inline capacity
sizeof(string_heap_ct) - 1 = 15 in stack mode, the heap alloc field
(union bytes 8 to 15) in heap mode. -/
def string_capacity (s : MString) : Nat :=
  if m_str1ng_stack_p s then 15
  else m_le_decode (s.u.drop 8)

/-- string_get_cstr and m_str1ng_get_cstr: the stack buffer in stack
mode, the heap buffer in heap mode. -/
def string_get_cstr (s : MString) : List Nat :=
  match s.ptr with
  | none => s.u
  | some buf => buf

/-- m_str1ng_set_size: rewrite the stack size byte (stored through a
char, hence modulo 256; the C asserts the size fits) or the heap size
field.  It never moves memory. -/
def m_str1ng_set_size (s : MString) (size : Nat) : MString :=
  if m_str1ng_stack_p s then ⟨s.u.set 15 (size % 256), s.ptr⟩
  else ⟨m_le_encode8 size ++ s.u.drop 8, s.ptr⟩

/-- The logical contents of a string: its first size bytes. -/
def string_get_contents (s : MString) : List Nat :=
  m_memread (string_get_cstr s) (string_size s)

/-- M_STR1NG_CONTRACT as a decidable predicate: size agrees with
strlen, the byte at index size is the NUL terminator, size is below
capacity, and a capacity of at least sizeof(string_heap_ct) implies
heap mode (the fourth assert of the macro, with the implication written
as its disjunction). -/
def M_STR1NG_CONTRACT (v : MString) : Bool :=
  (string_size v == m_strlen (string_get_cstr v)) &&
  ((string_get_cstr v).getD (string_size v) 0 == 0) &&
  decide (string_size v < string_capacity v) &&
  (decide (string_capacity v < 16) || !(m_str1ng_stack_p v))

/-- string_init: null pointer (stack mode), empty contents, size 0;
uninitialized stack bytes are modelled as 0. -/
def string_init : MString :=
  ⟨List.replicate 16 0, none⟩

/-- Overwrite of a byte region of a buffer starting at pos (memcpy
semantics; the destination is padded with zero bytes if the write
starts past its physical end). -/
def m_memwrite (dst : List Nat) (pos : Nat) (src : List Nat) : List Nat :=
  (dst.take pos ++ List.replicate (pos - dst.length) 0) ++ src ++
    dst.drop (pos + src.length)

/-- Write bytes into the buffer the string currently uses (stack or
heap). -/
def m_mstr_write (v : MString) (pos : Nat) (bytes : List Nat) : MString :=
  match v.ptr with
  | none => ⟨m_memwrite v.u pos bytes, none⟩
  | some buf => ⟨v.u, some (m_memwrite buf pos bytes)⟩

/-- m_str1ng_fit2size: if the requested allocation exceeds the current
capacity, grow to requested + requested / 2 in size_t arithmetic; a
computed allocation not above the current capacity is the overflow
case, reported through M_MEMORY_FULL followed by abort, modelled as
none.  Otherwise reallocate (realloc is assumed to succeed; its
environmental failure is the other M_MEMORY_FULL path), copying the
stored size + 1 stack bytes into the fresh heap block on promotion
(the stored size read through the char cast), and store the new alloc
in the heap alloc field; the heap size field is left untouched, exactly
as in the C (callers set the size afterwards). -/
def m_str1ng_fit2size (v : MString) (size_alloc : Nat) : Option MString :=
  let old_alloc := string_capacity v
  if size_alloc > old_alloc then
    let alloc := (size_alloc + size_alloc / 2) % 2 ^ 64
    if alloc ≤ old_alloc then
      none
    else
      let buf :=
        match v.ptr with
        | none => m_memread v.u (m_size_t_of_char (v.u.getD 15 0) + 1)
        | some b => b
      some ⟨v.u.take 8 ++ m_le_encode8 alloc, some buf⟩
  else
    some v

/-- string_reserve: clamp the request to size + 1 (shrink to fit); a
clamped request that fits the inline buffer demotes a heap string
(copy size + 1 bytes into the union, free the heap block, null the
pointer, store the size in the stack size byte) and leaves a stack
string alone; otherwise reallocate to exactly the clamped request,
copying the stack bytes and setting the heap size field on promotion,
and store the new alloc.  Allocation is assumed to succeed. -/
def string_reserve (v : MString) (alloc0 : Nat) : MString :=
  let size := string_size v
  let alloc := if size + 1 > alloc0 then size + 1 else alloc0
  if alloc < 16 then
    match v.ptr with
    | some buf =>
      m_str1ng_set_size ⟨m_memread buf (size + 1) ++ v.u.drop (size + 1), none⟩ size
    | none => v
  else
    match v.ptr with
    | none =>
      ⟨(m_le_encode8 size).take 8 ++ m_le_encode8 alloc,
       some (m_memread v.u (size + 1))⟩
    | some buf =>
      ⟨v.u.take 8 ++ m_le_encode8 alloc, some buf⟩

/-- string_set_str: fit the buffer to strlen(str) + 1, copy the bytes
and the final NUL, set the size. -/
def string_set_str (v : MString) (str : List Nat) : Option MString :=
  match m_str1ng_fit2size v (str.length + 1) with
  | none => none
  | some v2 => some (m_str1ng_set_size (m_mstr_write v2 0 (str ++ [0])) str.length)

/-- m_str1ng_replace_all_str_1ge2 on the string object: run the forward
in-place pass over the vlen content bytes and set the new size; the
resulting bytes of the buffer up to the new size and its terminator are
those of the pass. -/
def m_str1ng_replace_all_str_1ge2 (v : MString) (str1 str2 : List Nat) : MString :=
  let vlen := string_size v
  let res := m_str1ng_replace_all_str_1ge2_loop (vlen + 1) str1 str2
    (m_memread (string_get_cstr v) vlen)
  m_str1ng_set_size (m_mstr_write v 0 (res ++ [0])) res.length

/-- m_str1ng_replace_all_str_1lo2 on the string object: pre-grow the
buffer once to 1 + vlen / str1len * str2len (the claimed worst case),
run the reverse pass from the end of the content, then the final
compaction leaves the result at offset 0, the NUL is stored at index
equal to the new size (this store is the one that lands one past the
allocation when the pre-grow bound is too small), and the size is
updated. -/
def m_str1ng_replace_all_str_1lo2 (v : MString) (str1 str2 : List Nat) :
    Option MString :=
  let vlen := string_size v
  let alloc := (1 + vlen / str1.length * str2.length) % 2 ^ 64
  match m_str1ng_fit2size v alloc with
  | none => none
  | some v2 =>
    let res := m_str1ng_replace_all_str_1lo2_loop (vlen + 1) str1 str2
      (m_memread (string_get_cstr v2) vlen) []
    some (m_str1ng_set_size (m_mstr_write v2 0 (res ++ [0])) res.length)

/-- string_replace_all_str: dispatch on the relative lengths (the C
asserts a nonempty pattern). -/
def string_replace_all_str (v : MString) (str1 str2 : List Nat) : Option MString :=
  if str1.length ≥ str2.length then
    some (m_str1ng_replace_all_str_1ge2 v str1 str2)
  else
    m_str1ng_replace_all_str_1lo2 v str1 str2

/-- string_clear: free the heap block if any (the boolean records
whether a free happened), null the pointer, and poison the stack size
byte with CHAR_MAX to make the value detectably invalid. -/
def string_clear (v : MString) : MString × Bool :=
  (⟨v.u.set 15 127, none⟩, !m_str1ng_stack_p v)

/-- string_init_move: the destination takes the whole value (memcpy of
the struct); the source keeps its union bytes but its pointer is
nulled.  Returns (destination, source afterwards). -/
def string_init_move (v2 : MString) : MString × MString :=
  (v2, ⟨v2.u, none⟩)

/-- string_move: clear the destination, then init-move from the source.
Returns (destination, source afterwards, whether the old destination
freed heap memory). -/
def string_move (v1 v2 : MString) : MString × MString × Bool :=
  ((string_init_move v2).1, (string_init_move v2).2, (string_clear v1).2)

/-- string_oor_set: on an otherwise uninitialized value, null the
pointer and store the bitwise complement of n in the heap alloc
field. -/
def string_oor_set (s : MString) (n : Nat) : MString :=
  ⟨s.u.take 8 ++ m_le_encode8 (2 ^ 64 - 1 - n), none⟩

/-- string_oor_equal_p: the pointer is null and the heap alloc field
holds the complement of n. -/
def string_oor_equal_p (s : MString) (n : Nat) : Bool :=
  m_str1ng_stack_p s && (m_le_decode (s.u.drop 8) == 2 ^ 64 - 1 - n)

/-- string_cmp: strcmp of the two stored C strings. -/
def string_cmp (v1 v2 : MString) : Int :=
  m_strcmp (string_get_cstr v1) (string_get_cstr v2)

/-- string_equal_p: sizes equal (this reads safely even on an OOR
value) and then strcmp returns 0. -/
def string_equal_p (v1 v2 : MString) : Bool :=
  string_size v1 == string_size v2 && string_cmp v1 v2 == 0

/-! ## Theorems: quoted-escape codec -/

set_option maxRecDepth 4000 in
/-- Per-byte agreement of the source encoder with the amended
description, checked over all 256 byte values. -/
theorem m_str1ng_get_str_char_eq_amended :
    ∀ c : Nat, c < 256 → m_str1ng_get_str_char c = spec_get_str_char_amended c := by
  decide

/-- Claim C8. A string is encoded by emitting an opening double quote,
then per byte: the five special bytes via the perfect-hash table escape,
other non-printable bytes as a backslash and three octal digits (these
spell the byte value for bytes below 0x80 and the byte value plus 256
for bytes at or above 0x80, a consequence of signed char promotion),
printable bytes unchanged; then a closing double quote. -/
theorem string_get_str_spec_amended (s : List Nat) (hs : ∀ b ∈ s, b < 256) :
    string_get_str s = spec_get_str_amended s := by
  unfold string_get_str spec_get_str_amended
  congr 2
  exact List.flatMap_congr (fun b hb => m_str1ng_get_str_char_eq_amended b (hs b hb))

/-- Witness for the amended claim C8 at a concrete input containing a
special byte, a printable byte, a low non-printable byte and a high
byte. -/
theorem string_get_str_spec_amended_witness :
    string_get_str [10, 65, 7, 255] = spec_get_str_amended [10, 65, 7, 255] :=
  string_get_str_spec_amended [10, 65, 7, 255] (by decide)

/-- Counterexample to claim C8 as stated: on the byte 0xFF the encoder
emits the octal digits 777 (value 511, from signed char promotion), not
the octal digits 377 of the byte value 255 that the claim prescribes. -/
theorem string_get_str_octal_counterexample :
    string_get_str [255] = [34, 92, 55, 55, 55, 34] ∧
    spec_get_str [255] = [34, 92, 51, 55, 55, 34] ∧
    string_get_str [255] ≠ spec_get_str [255] := by
  decide

/-- Stepping the parse loop over a literal (unescaped) byte. -/
theorem m_str1ng_parse_str_loop_literal (c : Nat) (h34 : c ≠ 34) (h0 : c ≠ 0)
    (h92 : c ≠ 92) (rest v : List Nat) :
    m_str1ng_parse_str_loop (c :: rest) v =
      m_str1ng_parse_str_loop rest (v ++ [c % 256]) := by
  rw [m_str1ng_parse_str_loop]
  rw [if_neg h34, if_neg h0, if_neg h92]

/-- Stepping the parse loop over a two-character escape. -/
theorem m_str1ng_parse_str_loop_special (c2 : Nat)
    (h : c2 = 110 ∨ c2 = 116 ∨ c2 = 114 ∨ c2 = 92 ∨ c2 = 34)
    (rest v : List Nat) :
    m_str1ng_parse_str_loop (92 :: c2 :: rest) v =
      m_str1ng_parse_str_loop rest
        (v ++ [M_STR1NG_PARSE_STR_TAB.getD ((c2 ^^^ (c2 >>> 5)) &&& 7) 0]) := by
  rw [m_str1ng_parse_str_loop]
  simp only [List.headD_cons, List.tail_cons, if_true]
  rw [if_neg (show ¬((92 : Nat) = 34) by decide),
      if_neg (show ¬((92 : Nat) = 0) by decide), if_pos h]

/-- Stepping the parse loop over a three-octal-digit escape. -/
theorem m_str1ng_parse_str_loop_octal (a b d : Nat)
    (ha : 48 ≤ a ∧ a ≤ 55) (hb : 48 ≤ b ∧ b ≤ 55) (hd : 48 ≤ d ∧ d ≤ 55)
    (rest v : List Nat) :
    m_str1ng_parse_str_loop (92 :: a :: b :: d :: rest) v =
      m_str1ng_parse_str_loop rest
        (v ++ [((a - 48) * 64 + (b - 48) * 8 + (d - 48)) % 256]) := by
  rw [m_str1ng_parse_str_loop]
  simp only [List.headD_cons, List.tail_cons, if_true]
  rw [if_neg (show ¬((92 : Nat) = 34) by decide),
      if_neg (show ¬((92 : Nat) = 0) by decide),
      if_neg (by omega), if_pos ha, if_pos hb, if_pos hd]

/-- Round-trip of one encoded byte through the parse loop: parsing the
escape sequence (or literal byte) that the encoder emitted for a
nonzero byte pushes exactly that byte back. -/
theorem m_str1ng_parse_get_char (c : Nat) (hpos : 0 < c) (hlt : c < 256)
    (rest v : List Nat) :
    m_str1ng_parse_str_loop (m_str1ng_get_str_char c ++ rest) v =
      m_str1ng_parse_str_loop rest (v ++ [c]) := by
  rw [m_str1ng_get_str_char_eq_amended c hlt]
  by_cases h92 : c = 92
  · subst h92
    rw [(by decide : spec_get_str_char_amended 92 = [92, 92])]
    simp only [List.cons_append, List.nil_append]
    rw [m_str1ng_parse_str_loop_special 92 (by omega) rest v,
        (by decide : M_STR1NG_PARSE_STR_TAB.getD ((92 ^^^ (92 >>> 5)) &&& 7) 0 = 92)]
  · by_cases h34 : c = 34
    · subst h34
      rw [(by decide : spec_get_str_char_amended 34 = [92, 34])]
      simp only [List.cons_append, List.nil_append]
      rw [m_str1ng_parse_str_loop_special 34 (by omega) rest v,
          (by decide : M_STR1NG_PARSE_STR_TAB.getD ((34 ^^^ (34 >>> 5)) &&& 7) 0 = 34)]
    · by_cases h10 : c = 10
      · subst h10
        rw [(by decide : spec_get_str_char_amended 10 = [92, 110])]
        simp only [List.cons_append, List.nil_append]
        rw [m_str1ng_parse_str_loop_special 110 (by omega) rest v,
            (by decide : M_STR1NG_PARSE_STR_TAB.getD ((110 ^^^ (110 >>> 5)) &&& 7) 0 = 10)]
      · by_cases h9 : c = 9
        · subst h9
          rw [(by decide : spec_get_str_char_amended 9 = [92, 116])]
          simp only [List.cons_append, List.nil_append]
          rw [m_str1ng_parse_str_loop_special 116 (by omega) rest v,
              (by decide : M_STR1NG_PARSE_STR_TAB.getD ((116 ^^^ (116 >>> 5)) &&& 7) 0 = 9)]
        · by_cases h13 : c = 13
          · subst h13
            rw [(by decide : spec_get_str_char_amended 13 = [92, 114])]
            simp only [List.cons_append, List.nil_append]
            rw [m_str1ng_parse_str_loop_special 114 (by omega) rest v,
                (by decide : M_STR1NG_PARSE_STR_TAB.getD ((114 ^^^ (114 >>> 5)) &&& 7) 0 = 13)]
          · unfold spec_get_str_char_amended
            rw [if_neg h92, if_neg h34, if_neg h10, if_neg h9, if_neg h13]
            by_cases hpr : 32 ≤ c ∧ c ≤ 126
            · rw [if_neg (by simpa using hpr)]
              simp only [List.cons_append, List.nil_append]
              rw [m_str1ng_parse_str_loop_literal c h34 (by omega) h92 rest v]
              rw [Nat.mod_eq_of_lt hlt]
            · rw [if_pos (by simpa using hpr)]
              simp only [List.cons_append, List.nil_append]
              have hVlt : (if c < 128 then c else c + 256) < 512 := by
                split <;> omega
              have hVmod : (if c < 128 then c else c + 256) % 256 = c := by
                split <;> omega
              rw [m_str1ng_parse_str_loop_octal
                    (48 + (if c < 128 then c else c + 256) / 64)
                    (48 + (if c < 128 then c else c + 256) / 8 % 8)
                    (48 + (if c < 128 then c else c + 256) % 8)
                    (by omega) (by omega) (by omega) rest v]
              have hdig :
                  ((48 + (if c < 128 then c else c + 256) / 64 - 48) * 64 +
                   (48 + (if c < 128 then c else c + 256) / 8 % 8 - 48) * 8 +
                   (48 + (if c < 128 then c else c + 256) % 8 - 48)) % 256 = c := by
                omega
              rw [hdig]

/-- Parsing the encoded body followed by the closing quote accumulates
exactly the original contents. -/
theorem m_str1ng_parse_get_loop (s : List Nat)
    (hs : ∀ b ∈ s, 0 < b ∧ b < 256) (v : List Nat) :
    m_str1ng_parse_str_loop (s.flatMap m_str1ng_get_str_char ++ [34]) v =
      some (v ++ s) := by
  induction s generalizing v with
  | nil =>
    show m_str1ng_parse_str_loop [34] v = some (v ++ [])
    rw [m_str1ng_parse_str_loop]
    simp
  | cons c t ih =>
    have hc := hs c (List.mem_cons_self c t)
    rw [List.flatMap_cons, List.append_assoc,
        m_str1ng_parse_get_char c hc.1 hc.2]
    rw [ih (fun b hb => hs b (List.mem_cons_of_mem c hb)) (v ++ [c])]
    simp

/-- Claim C2. For every string contents S made of nonzero bytes (the
string contract guarantees the stored C string has no interior NUL),
encoding with string_get_str in replace mode and decoding the produced
text with string_parse_str succeeds and returns exactly S. -/
theorem string_parse_str_round_trip (s : List Nat)
    (hs : ∀ b ∈ s, 0 < b ∧ b < 256) :
    string_parse_str (string_get_str s) = some s := by
  unfold string_get_str string_parse_str
  simp only [List.cons_append, List.headD_cons, List.tail_cons, if_true]
  rw [m_str1ng_parse_get_loop s hs []]
  simp

/-- Witness for claim C2 on the spec scenario text: the contents of
the string: the (quote) cat (quote) (newline). -/
theorem string_parse_str_round_trip_witness :
    string_parse_str
        (string_get_str [116, 104, 101, 32, 34, 99, 97, 116, 34, 10]) =
      some [116, 104, 101, 32, 34, 99, 97, 116, 34, 10] :=
  string_parse_str_round_trip [116, 104, 101, 32, 34, 99, 97, 116, 34, 10]
    (by decide)

/-! ## Theorems: UTF-8 codec -/

/-- Byte classification: ASCII bytes have class 0. -/
theorem m_utf8_type_ascii : ∀ b < 128, m_core_clz32 (255 - b) - 24 = 0 := by
  decide

set_option maxRecDepth 8000 in
/-- Byte classification: continuation bytes have class 1. -/
theorem m_utf8_type_cont : ∀ b < 192, 128 ≤ b → m_core_clz32 (255 - b) - 24 = 1 := by
  decide

set_option maxRecDepth 8000 in
/-- Byte classification: two-byte lead bytes have class 2. -/
theorem m_utf8_type_lead2 : ∀ b < 224, 192 ≤ b → m_core_clz32 (255 - b) - 24 = 2 := by
  decide

set_option maxRecDepth 8000 in
/-- Byte classification: three-byte lead bytes have class 3. -/
theorem m_utf8_type_lead3 : ∀ b < 240, 224 ≤ b → m_core_clz32 (255 - b) - 24 = 3 := by
  decide

set_option maxRecDepth 8000 in
/-- Byte classification: four-byte lead bytes have class 4. -/
theorem m_utf8_type_lead4 : ∀ b < 248, 240 ≤ b → m_core_clz32 (255 - b) - 24 = 4 := by
  decide

/-- Bitwise or of a shifted value with a small value is addition. -/
theorem m_or_eq_add (a b n : Nat) (hb : b < 2 ^ n) :
    (a * 2 ^ n) ||| b = a * 2 ^ n + b := by
  rw [Nat.mul_comm a (2 ^ n)]
  exact (Nat.mul_add_lt_is_or hb a).symm

/-- Decoder step from the starting state on an ASCII byte: back to the
starting state with the byte itself as the code point (the previous
accumulator is wiped by mask1). -/
theorem m_utf8_decode_start_ascii (b u : Nat) (hb : b < 128) :
    m_str1ng_utf8_decode b 0 u = (0, b) := by
  have hb' : b % 256 = b := Nat.mod_eq_of_lt (by omega)
  simp only [m_str1ng_utf8_decode, hb']
  rw [m_utf8_type_ascii b hb]
  rw [if_neg (by norm_num : ¬((0 : Nat) ≠ 0))]
  rw [if_pos hb]
  have hm1 : ((2 ^ 32 - 1) - 0 + 1) % 2 ^ 32 = 0 := by norm_num
  rw [hm1, Nat.and_zero, Nat.zero_or]
  have h255 : (255 : Nat) >>> 0 = 2 ^ 8 - 1 := by decide
  rw [h255, Nat.and_pow_two_sub_one_eq_mod]
  have : b % 2 ^ 8 = b := Nat.mod_eq_of_lt (by omega)
  rw [this]
  rfl

/-- Decoder step from the starting state on a two-byte lead byte. -/
theorem m_utf8_decode_start_lead2 (b u : Nat) (h1 : 192 ≤ b) (h2 : b ≤ 223) :
    m_str1ng_utf8_decode b 0 u = (8, b - 192) := by
  have hb' : b % 256 = b := Nat.mod_eq_of_lt (by omega)
  simp only [m_str1ng_utf8_decode, hb']
  rw [m_utf8_type_lead2 b (by omega) h1]
  rw [if_neg (by norm_num : ¬((0 : Nat) ≠ 0))]
  rw [if_neg (by omega : ¬(b < 128))]
  have hm1 : ((2 ^ 32 - 1) - 0 + 1) % 2 ^ 32 = 0 := by norm_num
  rw [hm1, Nat.and_zero, Nat.zero_or]
  have h255 : (255 : Nat) >>> 2 = 2 ^ 6 - 1 := by decide
  rw [h255, Nat.and_pow_two_sub_one_eq_mod]
  have : (2 ^ 32 - 256 + b) % 2 ^ 6 = b - 192 := by omega
  rw [this]
  rfl

/-- Decoder step from the starting state on a three-byte lead byte. -/
theorem m_utf8_decode_start_lead3 (b u : Nat) (h1 : 224 ≤ b) (h2 : b ≤ 239) :
    m_str1ng_utf8_decode b 0 u = (16, b - 224) := by
  have hb' : b % 256 = b := Nat.mod_eq_of_lt (by omega)
  simp only [m_str1ng_utf8_decode, hb']
  rw [m_utf8_type_lead3 b (by omega) h1]
  rw [if_neg (by norm_num : ¬((0 : Nat) ≠ 0))]
  rw [if_neg (by omega : ¬(b < 128))]
  have hm1 : ((2 ^ 32 - 1) - 0 + 1) % 2 ^ 32 = 0 := by norm_num
  rw [hm1, Nat.and_zero, Nat.zero_or]
  have h255 : (255 : Nat) >>> 3 = 2 ^ 5 - 1 := by decide
  rw [h255, Nat.and_pow_two_sub_one_eq_mod]
  have : (2 ^ 32 - 256 + b) % 2 ^ 5 = b - 224 := by omega
  rw [this]
  rfl

/-- Decoder step from the starting state on a four-byte lead byte. -/
theorem m_utf8_decode_start_lead4 (b u : Nat) (h1 : 240 ≤ b) (h2 : b ≤ 247) :
    m_str1ng_utf8_decode b 0 u = (24, b - 240) := by
  have hb' : b % 256 = b := Nat.mod_eq_of_lt (by omega)
  simp only [m_str1ng_utf8_decode, hb']
  rw [m_utf8_type_lead4 b (by omega) h1]
  rw [if_neg (by norm_num : ¬((0 : Nat) ≠ 0))]
  rw [if_neg (by omega : ¬(b < 128))]
  have hm1 : ((2 ^ 32 - 1) - 0 + 1) % 2 ^ 32 = 0 := by norm_num
  rw [hm1, Nat.and_zero, Nat.zero_or]
  have h255 : (255 : Nat) >>> 4 = 2 ^ 4 - 1 := by decide
  rw [h255, Nat.and_pow_two_sub_one_eq_mod]
  have : (2 ^ 32 - 256 + b) % 2 ^ 4 = b - 240 := by omega
  rw [this]
  rfl

/-- Decoder step from a decoding state on a continuation byte: shift
six payload bits into the accumulator and step the state down. -/
theorem m_utf8_decode_cont (b u st : Nat) (h1 : 128 ≤ b) (h2 : b ≤ 191)
    (hst : st = 8 ∨ st = 16 ∨ st = 24) (hu : u < 2 ^ 26) :
    m_str1ng_utf8_decode b st u = (st - 8, u * 64 + (b - 128)) := by
  have hb' : b % 256 = b := Nat.mod_eq_of_lt (by omega)
  have htype := m_utf8_type_cont b (by omega) h1
  have h255 : (255 : Nat) >>> 1 = 2 ^ 7 - 1 := by decide
  have hsh : (u <<< 6) % 2 ^ 32 = u * 2 ^ 6 := by
    rw [Nat.shiftLeft_eq]
    exact Nat.mod_eq_of_lt (by omega)
  have hx : (2 ^ 32 - 256 + b) % 2 ^ 7 = b - 128 := by omega
  have hor := m_or_eq_add u (b - 128) 6 (by omega)
  rcases hst with h | h | h <;> subst h <;>
    · simp only [m_str1ng_utf8_decode, hb', htype, h255, hsh]
      rw [if_pos (by norm_num), if_neg (by omega : ¬(b < 128))]
      have hm1 : ((2 ^ 32 - 1) - 1 + 1) % 2 ^ 32 = 2 ^ 32 - 1 := by norm_num
      rw [hm1, Nat.and_pow_two_sub_one_eq_mod, Nat.and_pow_two_sub_one_eq_mod]
      have hmod : u * 2 ^ 6 % 2 ^ 32 = u * 2 ^ 6 := Nat.mod_eq_of_lt (by omega)
      rw [hmod, hx, hor]
      norm_num
      rfl

/-- Shape of a one-byte encoding. -/
theorem m_utf8_encode_eq_1 (u : Nat) (h : u ≤ 0x7F) :
    m_str1ng_utf8_encode u = [u] := by
  unfold m_str1ng_utf8_encode
  rw [if_pos h]
  have : u % 256 = u := Nat.mod_eq_of_lt (by omega)
  rw [this]

/-- Shape of a two-byte encoding. -/
theorem m_utf8_encode_eq_2 (u : Nat) (h1 : 0x80 ≤ u) (h2 : u ≤ 0x7FF) :
    m_str1ng_utf8_encode u = [192 + u / 64, 128 + u % 64] := by
  unfold m_str1ng_utf8_encode
  rw [if_neg (by omega), if_pos h2]
  have e1 : (0xC0 ||| (u >>> 6)) % 256 = 192 + u / 64 := by
    rw [Nat.shiftRight_eq_div_pow, show (0xC0 : Nat) = 3 * 2 ^ 6 by norm_num,
        m_or_eq_add 3 (u / 2 ^ 6) 6 (by omega)]
    omega
  have e2 : (0x80 ||| (u &&& 0x3F)) % 256 = 128 + u % 64 := by
    rw [show (0x3F : Nat) = 2 ^ 6 - 1 by norm_num, Nat.and_pow_two_sub_one_eq_mod,
        show (0x80 : Nat) = 1 * 2 ^ 7 by norm_num,
        m_or_eq_add 1 (u % 2 ^ 6) 7 (by omega)]
    omega
  rw [e1, e2]

/-- Shape of a three-byte encoding. -/
theorem m_utf8_encode_eq_3 (u : Nat) (h1 : 0x800 ≤ u) (h2 : u ≤ 0xFFFF) :
    m_str1ng_utf8_encode u = [224 + u / 4096, 128 + u / 64 % 64, 128 + u % 64] := by
  unfold m_str1ng_utf8_encode
  rw [if_neg (by omega), if_neg (by omega), if_pos h2]
  have e1 : (0xE0 ||| (u >>> 12)) % 256 = 224 + u / 4096 := by
    rw [Nat.shiftRight_eq_div_pow, show (0xE0 : Nat) = 7 * 2 ^ 5 by norm_num,
        m_or_eq_add 7 (u / 2 ^ 12) 5 (by omega)]
    omega
  have e2 : (0x80 ||| ((u >>> 6) &&& 0x3F)) % 256 = 128 + u / 64 % 64 := by
    rw [Nat.shiftRight_eq_div_pow, show (0x3F : Nat) = 2 ^ 6 - 1 by norm_num,
        Nat.and_pow_two_sub_one_eq_mod, show (0x80 : Nat) = 1 * 2 ^ 7 by norm_num,
        m_or_eq_add 1 (u / 2 ^ 6 % 2 ^ 6) 7 (by omega)]
    omega
  have e3 : (0x80 ||| (u &&& 0x3F)) % 256 = 128 + u % 64 := by
    rw [show (0x3F : Nat) = 2 ^ 6 - 1 by norm_num, Nat.and_pow_two_sub_one_eq_mod,
        show (0x80 : Nat) = 1 * 2 ^ 7 by norm_num,
        m_or_eq_add 1 (u % 2 ^ 6) 7 (by omega)]
    omega
  rw [e1, e2, e3]

/-- Shape of a four-byte encoding for code points up to 0x10FFFF. -/
theorem m_utf8_encode_eq_4 (u : Nat) (h1 : 0x10000 ≤ u) (h2 : u ≤ 0x10FFFF) :
    m_str1ng_utf8_encode u =
      [240 + u / 262144, 128 + u / 4096 % 64, 128 + u / 64 % 64, 128 + u % 64] := by
  unfold m_str1ng_utf8_encode
  rw [if_neg (by omega), if_neg (by omega), if_neg (by omega)]
  have e1 : (0xF0 ||| (u >>> 18)) % 256 = 240 + u / 262144 := by
    rw [Nat.shiftRight_eq_div_pow, show (0xF0 : Nat) = 15 * 2 ^ 4 by norm_num,
        m_or_eq_add 15 (u / 2 ^ 18) 4 (by omega)]
    omega
  have e2 : (0x80 ||| ((u >>> 12) &&& 0x3F)) % 256 = 128 + u / 4096 % 64 := by
    rw [Nat.shiftRight_eq_div_pow, show (0x3F : Nat) = 2 ^ 6 - 1 by norm_num,
        Nat.and_pow_two_sub_one_eq_mod, show (0x80 : Nat) = 1 * 2 ^ 7 by norm_num,
        m_or_eq_add 1 (u / 2 ^ 12 % 2 ^ 6) 7 (by omega)]
    omega
  have e3 : (0x80 ||| ((u >>> 6) &&& 0x3F)) % 256 = 128 + u / 64 % 64 := by
    rw [Nat.shiftRight_eq_div_pow, show (0x3F : Nat) = 2 ^ 6 - 1 by norm_num,
        Nat.and_pow_two_sub_one_eq_mod, show (0x80 : Nat) = 1 * 2 ^ 7 by norm_num,
        m_or_eq_add 1 (u / 2 ^ 6 % 2 ^ 6) 7 (by omega)]
    omega
  have e4 : (0x80 ||| (u &&& 0x3F)) % 256 = 128 + u % 64 := by
    rw [show (0x3F : Nat) = 2 ^ 6 - 1 by norm_num, Nat.and_pow_two_sub_one_eq_mod,
        show (0x80 : Nat) = 1 * 2 ^ 7 by norm_num,
        m_or_eq_add 1 (u % 2 ^ 6) 7 (by omega)]
    omega
  rw [e1, e2, e3, e4]

/-- Validator loop step through one byte that neither errors nor
completes an out-of-range code point. -/
theorem m_utf8_valid_loop_step (c st u st2 u2 : Nat) (rest : List Nat)
    (h : m_str1ng_utf8_decode c st u = (st2, u2))
    (hok : ¬(st2 = 32 ∨ (st2 = 0 ∧ (u2 > 0x10FFFF ∨ (0xD800 ≤ u2 ∧ u2 ≤ 0xDFFF))))) :
    m_str1ng_utf8_valid_str_p_loop (c :: rest) st u =
      m_str1ng_utf8_valid_str_p_loop rest st2 u2 := by
  rw [m_str1ng_utf8_valid_str_p_loop, h]
  exact if_neg hok

/-- Decode-sequence loop step through a mid-sequence byte. -/
theorem m_utf8_seq_loop_step_mid (c st u st2 u2 : Nat) (rest : List Nat)
    (h : m_str1ng_utf8_decode c st u = (st2, u2))
    (h32 : st2 ≠ 32) (h0 : st2 ≠ 0) :
    m_str1ng_utf8_decode_seq_loop (c :: rest) st u =
      m_str1ng_utf8_decode_seq_loop rest st2 u2 := by
  rw [m_str1ng_utf8_decode_seq_loop, h]
  rw [if_neg (by simpa using h32), if_neg (by simpa using h0)]

/-- Decode-sequence loop step through a byte completing a code point. -/
theorem m_utf8_seq_loop_step_fin (c st u u2 : Nat) (rest : List Nat)
    (h : m_str1ng_utf8_decode c st u = (0, u2)) :
    m_str1ng_utf8_decode_seq_loop (c :: rest) st u =
      (m_str1ng_utf8_decode_seq_loop rest 0 u2).map (fun l => u2 :: l) := by
  rw [m_str1ng_utf8_decode_seq_loop, h]
  rw [if_neg (by norm_num), if_pos rfl]

/-- Walking the validator over one encoded code point: the machine
passes all checks and comes back to the starting state with the code
point as accumulator. -/
theorem m_utf8_valid_loop_enc (u w : Nat) (h0 : 0 < u) (hmax : u ≤ 0x10FFFF)
    (hsur : ¬(0xD800 ≤ u ∧ u ≤ 0xDFFF)) (rest : List Nat) :
    m_str1ng_utf8_valid_str_p_loop (m_str1ng_utf8_encode u ++ rest) 0 w =
      m_str1ng_utf8_valid_str_p_loop rest 0 u := by
  by_cases hc1 : u ≤ 0x7F
  · rw [m_utf8_encode_eq_1 u hc1]
    simp only [List.cons_append, List.nil_append]
    rw [m_utf8_valid_loop_step u 0 w 0 u rest
          (m_utf8_decode_start_ascii u w (by omega)) (by simp; omega)]
  · by_cases hc2 : u ≤ 0x7FF
    · rw [m_utf8_encode_eq_2 u (by omega) hc2]
      simp only [List.cons_append, List.nil_append]
      have s1 := m_utf8_decode_start_lead2 (192 + u / 64) w (by omega) (by omega)
      norm_num at s1
      have s2 := m_utf8_decode_cont (128 + u % 64) (u / 64) 8 (by omega) (by omega)
        (by norm_num) (by omega)
      rw [show u / 64 * 64 + (128 + u % 64 - 128) = u by omega] at s2
      norm_num at s2
      rw [m_utf8_valid_loop_step _ _ _ _ _ _ s1 (by norm_num)]
      rw [m_utf8_valid_loop_step _ _ _ _ _ _ s2 (by simp; omega)]
    · by_cases hc3 : u ≤ 0xFFFF
      · rw [m_utf8_encode_eq_3 u (by omega) hc3]
        simp only [List.cons_append, List.nil_append]
        have s1 := m_utf8_decode_start_lead3 (224 + u / 4096) w (by omega) (by omega)
        norm_num at s1
        have s2 := m_utf8_decode_cont (128 + u / 64 % 64) (u / 4096) 16
          (by omega) (by omega) (by norm_num) (by omega)
        rw [show u / 4096 * 64 + (128 + u / 64 % 64 - 128) = u / 64 by omega] at s2
        norm_num at s2
        have s3 := m_utf8_decode_cont (128 + u % 64) (u / 64) 8 (by omega) (by omega)
          (by norm_num) (by omega)
        rw [show u / 64 * 64 + (128 + u % 64 - 128) = u by omega] at s3
        norm_num at s3
        rw [m_utf8_valid_loop_step _ _ _ _ _ _ s1 (by norm_num)]
        rw [m_utf8_valid_loop_step _ _ _ _ _ _ s2 (by norm_num)]
        rw [m_utf8_valid_loop_step _ _ _ _ _ _ s3 (by simp; omega)]
      · rw [m_utf8_encode_eq_4 u (by omega) hmax]
        simp only [List.cons_append, List.nil_append]
        have s1 := m_utf8_decode_start_lead4 (240 + u / 262144) w (by omega) (by omega)
        norm_num at s1
        have s2 := m_utf8_decode_cont (128 + u / 4096 % 64) (u / 262144) 24
          (by omega) (by omega) (by norm_num) (by omega)
        rw [show u / 262144 * 64 + (128 + u / 4096 % 64 - 128) = u / 4096 by omega] at s2
        norm_num at s2
        have s3 := m_utf8_decode_cont (128 + u / 64 % 64) (u / 4096) 16
          (by omega) (by omega) (by norm_num) (by omega)
        rw [show u / 4096 * 64 + (128 + u / 64 % 64 - 128) = u / 64 by omega] at s3
        norm_num at s3
        have s4 := m_utf8_decode_cont (128 + u % 64) (u / 64) 8 (by omega) (by omega)
          (by norm_num) (by omega)
        rw [show u / 64 * 64 + (128 + u % 64 - 128) = u by omega] at s4
        norm_num at s4
        rw [m_utf8_valid_loop_step _ _ _ _ _ _ s1 (by norm_num)]
        rw [m_utf8_valid_loop_step _ _ _ _ _ _ s2 (by norm_num)]
        rw [m_utf8_valid_loop_step _ _ _ _ _ _ s3 (by norm_num)]
        rw [m_utf8_valid_loop_step _ _ _ _ _ _ s4 (by simp; omega)]

/-- Walking the decode-sequence loop over one encoded code point:
exactly that code point is produced. -/
theorem m_utf8_seq_loop_enc (u w : Nat) (h0 : 0 < u) (hmax : u ≤ 0x10FFFF)
    (rest : List Nat) :
    m_str1ng_utf8_decode_seq_loop (m_str1ng_utf8_encode u ++ rest) 0 w =
      (m_str1ng_utf8_decode_seq_loop rest 0 u).map (fun l => u :: l) := by
  by_cases hc1 : u ≤ 0x7F
  · rw [m_utf8_encode_eq_1 u hc1]
    simp only [List.cons_append, List.nil_append]
    rw [m_utf8_seq_loop_step_fin u 0 w u rest
          (m_utf8_decode_start_ascii u w (by omega))]
  · by_cases hc2 : u ≤ 0x7FF
    · rw [m_utf8_encode_eq_2 u (by omega) hc2]
      simp only [List.cons_append, List.nil_append]
      have s1 := m_utf8_decode_start_lead2 (192 + u / 64) w (by omega) (by omega)
      norm_num at s1
      have s2 := m_utf8_decode_cont (128 + u % 64) (u / 64) 8 (by omega) (by omega)
        (by norm_num) (by omega)
      rw [show u / 64 * 64 + (128 + u % 64 - 128) = u by omega] at s2
      norm_num at s2
      rw [m_utf8_seq_loop_step_mid _ _ _ _ _ _ s1 (by norm_num) (by norm_num)]
      rw [m_utf8_seq_loop_step_fin _ _ _ _ _ s2]
    · by_cases hc3 : u ≤ 0xFFFF
      · rw [m_utf8_encode_eq_3 u (by omega) hc3]
        simp only [List.cons_append, List.nil_append]
        have s1 := m_utf8_decode_start_lead3 (224 + u / 4096) w (by omega) (by omega)
        norm_num at s1
        have s2 := m_utf8_decode_cont (128 + u / 64 % 64) (u / 4096) 16
          (by omega) (by omega) (by norm_num) (by omega)
        rw [show u / 4096 * 64 + (128 + u / 64 % 64 - 128) = u / 64 by omega] at s2
        norm_num at s2
        have s3 := m_utf8_decode_cont (128 + u % 64) (u / 64) 8 (by omega) (by omega)
          (by norm_num) (by omega)
        rw [show u / 64 * 64 + (128 + u % 64 - 128) = u by omega] at s3
        norm_num at s3
        rw [m_utf8_seq_loop_step_mid _ _ _ _ _ _ s1 (by norm_num) (by norm_num)]
        rw [m_utf8_seq_loop_step_mid _ _ _ _ _ _ s2 (by norm_num) (by norm_num)]
        rw [m_utf8_seq_loop_step_fin _ _ _ _ _ s3]
      · rw [m_utf8_encode_eq_4 u (by omega) hmax]
        simp only [List.cons_append, List.nil_append]
        have s1 := m_utf8_decode_start_lead4 (240 + u / 262144) w (by omega) (by omega)
        norm_num at s1
        have s2 := m_utf8_decode_cont (128 + u / 4096 % 64) (u / 262144) 24
          (by omega) (by omega) (by norm_num) (by omega)
        rw [show u / 262144 * 64 + (128 + u / 4096 % 64 - 128) = u / 4096 by omega] at s2
        norm_num at s2
        have s3 := m_utf8_decode_cont (128 + u / 64 % 64) (u / 4096) 16
          (by omega) (by omega) (by norm_num) (by omega)
        rw [show u / 4096 * 64 + (128 + u / 64 % 64 - 128) = u / 64 by omega] at s3
        norm_num at s3
        have s4 := m_utf8_decode_cont (128 + u % 64) (u / 64) 8 (by omega) (by omega)
          (by norm_num) (by omega)
        rw [show u / 64 * 64 + (128 + u % 64 - 128) = u by omega] at s4
        norm_num at s4
        rw [m_utf8_seq_loop_step_mid _ _ _ _ _ _ s1 (by norm_num) (by norm_num)]
        rw [m_utf8_seq_loop_step_mid _ _ _ _ _ _ s2 (by norm_num) (by norm_num)]
        rw [m_utf8_seq_loop_step_mid _ _ _ _ _ _ s3 (by norm_num) (by norm_num)]
        rw [m_utf8_seq_loop_step_fin _ _ _ _ _ s4]

/-- The validator accepts the encoding of any sequence of nonzero
scalar values, from any starting accumulator. -/
theorem m_utf8_valid_loop_enc_all (L : List Nat)
    (hL : ∀ u ∈ L, 0 < u ∧ u ≤ 0x10FFFF ∧ ¬(0xD800 ≤ u ∧ u ≤ 0xDFFF)) :
    ∀ w, m_str1ng_utf8_valid_str_p_loop (L.flatMap m_str1ng_utf8_encode) 0 w = true := by
  induction L with
  | nil => intro w; rfl
  | cons u t ih =>
    intro w
    have hu := hL u (List.mem_cons_self u t)
    rw [List.flatMap_cons, m_utf8_valid_loop_enc u w hu.1 hu.2.1 hu.2.2]
    exact ih (fun x hx => hL x (List.mem_cons_of_mem u hx)) u

/-- The decode loop recovers the encoded sequence of scalar values,
from any starting accumulator. -/
theorem m_utf8_seq_loop_enc_all (L : List Nat)
    (hL : ∀ u ∈ L, 0 < u ∧ u ≤ 0x10FFFF ∧ ¬(0xD800 ≤ u ∧ u ≤ 0xDFFF)) :
    ∀ w, m_str1ng_utf8_decode_seq_loop (L.flatMap m_str1ng_utf8_encode) 0 w = some L := by
  induction L with
  | nil => intro w; rfl
  | cons u t ih =>
    intro w
    have hu := hL u (List.mem_cons_self u t)
    rw [List.flatMap_cons, m_utf8_seq_loop_enc u w hu.1 hu.2.1]
    rw [ih (fun x hx => hL x (List.mem_cons_of_mem u hx)) u]
    rfl

/-- Claim C5 as amended. For every byte string U that is the UTF-8
encoding of a sequence L of nonzero scalar values at most 0x10FFFF and
outside the surrogate range, U is accepted by the validator, decoding U
yields exactly L, and re-encoding the decoded sequence reproduces U
byte for byte.  (The restriction to canonically encoded, complete
strings is necessary: see the counterexample.) -/
theorem m_str1ng_utf8_encode_decode_round_trip (L : List Nat)
    (hL : ∀ u ∈ L, 0 < u ∧ u ≤ 0x10FFFF ∧ ¬(0xD800 ≤ u ∧ u ≤ 0xDFFF)) :
    m_str1ng_utf8_valid_str_p (L.flatMap m_str1ng_utf8_encode) = true ∧
    m_str1ng_utf8_decode_seq (L.flatMap m_str1ng_utf8_encode) = some L ∧
    (m_str1ng_utf8_decode_seq (L.flatMap m_str1ng_utf8_encode)).map
        (fun l => l.flatMap m_str1ng_utf8_encode) =
      some (L.flatMap m_str1ng_utf8_encode) := by
  refine ⟨m_utf8_valid_loop_enc_all L hL 0, m_utf8_seq_loop_enc_all L hL 0, ?_⟩
  rw [m_str1ng_utf8_decode_seq, m_utf8_seq_loop_enc_all L hL 0]
  rfl

/-- Witness for the amended claim C5 on a sequence exercising all four
encoded lengths. -/
theorem m_str1ng_utf8_round_trip_witness :
    m_str1ng_utf8_valid_str_p
        ([36, 162, 2361, 8364, 66376].flatMap m_str1ng_utf8_encode) = true ∧
    m_str1ng_utf8_decode_seq
        ([36, 162, 2361, 8364, 66376].flatMap m_str1ng_utf8_encode) =
      some [36, 162, 2361, 8364, 66376] ∧
    (m_str1ng_utf8_decode_seq
        ([36, 162, 2361, 8364, 66376].flatMap m_str1ng_utf8_encode)).map
        (fun l => l.flatMap m_str1ng_utf8_encode) =
      some ([36, 162, 2361, 8364, 66376].flatMap m_str1ng_utf8_encode) :=
  m_str1ng_utf8_encode_decode_round_trip [36, 162, 2361, 8364, 66376] (by decide)

/-- Counterexample to claim C5 as stated: the overlong sequence C0 80
passes the validator (the byte-level table accepts it and its decoded
code point 0 is in range) yet decodes to the code point 0 whose
re-encoding is the single NUL byte, not C0 80; likewise the lone lead
byte C3 passes the validator (the scan ends mid-sequence without
error) yet decodes to the empty sequence whose re-encoding is empty. -/
theorem m_str1ng_utf8_round_trip_counterexample :
    m_str1ng_utf8_valid_str_p [0xC0, 0x80] = true ∧
    m_str1ng_utf8_decode_seq [0xC0, 0x80] = some [0] ∧
    ([0] : List Nat).flatMap m_str1ng_utf8_encode = [0] ∧
    ([0] : List Nat).flatMap m_str1ng_utf8_encode ≠ [0xC0, 0x80] ∧
    m_str1ng_utf8_valid_str_p [0xC3] = true ∧
    m_str1ng_utf8_decode_seq [0xC3] = some [] ∧
    ([] : List Nat).flatMap m_str1ng_utf8_encode ≠ [0xC3] := by
  decide

/-! ## Theorems: substring search and replace-all -/

/-- On an empty string a nonempty pattern is never found. -/
theorem m_strstr_nil (pat : List Nat) (h : pat ≠ []) : m_strstr [] pat = none := by
  rw [m_strstr]
  rcases pat with _ | ⟨p, ps⟩
  · exact absurd rfl h
  · simp [m_starts_with]

/-- Unfolding of m_strstr on a nonempty string. -/
theorem m_strstr_cons (c : Nat) (t pat : List Nat) :
    m_strstr (c :: t) pat =
      if m_starts_with pat (c :: t) then some 0
      else (m_strstr t pat).map (· + 1) := by
  rw [m_strstr]

/-- A reverse-scan hit is at or below the scan start. -/
theorem m_str1ng_strstr_r_loop_le (s pat : List Nat) :
    ∀ start q, m_str1ng_strstr_r_loop s pat start = some q → q ≤ start := by
  intro start
  induction start with
  | zero =>
    intro q h
    rw [m_str1ng_strstr_r_loop] at h
    split at h
    · simp at h
      omega
    · simp at h
  | succ n ih =>
    intro q h
    rw [m_str1ng_strstr_r_loop] at h
    split at h
    · simp at h
      omega
    · exact le_trans (ih q h) (by omega)

/-- A reverse-search hit lies wholly inside the string. -/
theorem m_str1ng_strstr_r_some_le (s pat : List Nat) (p : Nat)
    (h : m_str1ng_strstr_r s pat = some p) : p + pat.length ≤ s.length := by
  rw [m_str1ng_strstr_r] at h
  split at h
  · simp at h
  · have := m_str1ng_strstr_r_loop_le s pat _ p h
    omega

/-- Unfolding of the forward pass when no occurrence remains. -/
theorem m_1ge2_loop_of_none (fuel : Nat) (str1 str2 s : List Nat)
    (hocc : m_strstr s str1 = none) :
    m_str1ng_replace_all_str_1ge2_loop (fuel + 1) str1 str2 s = s := by
  rw [m_str1ng_replace_all_str_1ge2_loop, hocc]
  split <;> rfl

/-- Unfolding of the forward pass at the first occurrence. -/
theorem m_1ge2_loop_of_some (fuel : Nat) (str1 str2 s : List Nat) (h1 : str1 ≠ [])
    (i : Nat) (hocc : m_strstr s str1 = some i) :
    m_str1ng_replace_all_str_1ge2_loop (fuel + 1) str1 str2 s =
      s.take i ++ str2 ++
        m_str1ng_replace_all_str_1ge2_loop fuel str1 str2 (s.drop (i + str1.length)) := by
  rw [m_str1ng_replace_all_str_1ge2_loop, hocc, if_neg h1]

/-- Unfolding of the reverse pass when no occurrence remains. -/
theorem m_1lo2_loop_of_none (fuel : Nat) (str1 str2 pre acc : List Nat)
    (hocc : m_str1ng_strstr_r pre str1 = none) :
    m_str1ng_replace_all_str_1lo2_loop (fuel + 1) str1 str2 pre acc = pre ++ acc := by
  rw [m_str1ng_replace_all_str_1lo2_loop, hocc]
  split <;> rfl

/-- Unfolding of the reverse pass at the rightmost occurrence. -/
theorem m_1lo2_loop_of_some (fuel : Nat) (str1 str2 pre acc : List Nat)
    (h1 : str1 ≠ []) (p : Nat) (hocc : m_str1ng_strstr_r pre str1 = some p) :
    m_str1ng_replace_all_str_1lo2_loop (fuel + 1) str1 str2 pre acc =
      m_str1ng_replace_all_str_1lo2_loop fuel str1 str2 (pre.take p)
        (str2 ++ pre.drop (p + str1.length) ++ acc) := by
  rw [m_str1ng_replace_all_str_1lo2_loop, hocc, if_neg h1]

/-- Unfolding of spec_replace_ltr when the pattern matches here. -/
theorem spec_replace_ltr_of_hit (str1 str2 s : List Nat) (h1 : str1 ≠ [])
    (hsw : m_starts_with str1 s = true) :
    spec_replace_ltr str1 str2 s =
      str2 ++ spec_replace_ltr str1 str2 (s.drop str1.length) := by
  conv_lhs => rw [spec_replace_ltr]
  rw [dif_pos ⟨h1, hsw⟩]

/-- Unfolding of spec_replace_ltr on a byte where the pattern does not
match. -/
theorem spec_replace_ltr_of_miss (str1 str2 : List Nat) (c : Nat) (t : List Nat)
    (hsw : ¬(str1 ≠ [] ∧ m_starts_with str1 (c :: t) = true)) :
    spec_replace_ltr str1 str2 (c :: t) = c :: spec_replace_ltr str1 str2 t := by
  conv_lhs => rw [spec_replace_ltr]
  rw [dif_neg hsw]

/-- spec_replace_ltr leaves the empty string empty. -/
theorem spec_replace_ltr_nil (str1 str2 : List Nat) (h1 : str1 ≠ []) :
    spec_replace_ltr str1 str2 [] = [] := by
  rw [spec_replace_ltr]
  rw [dif_neg ?_]
  · rcases str1 with _ | ⟨p, ps⟩
    · exact absurd rfl h1
    · intro hc
      simpa [m_starts_with] using hc.2

/-- Unfolding of spec_replace_rtl when no occurrence remains. -/
theorem spec_replace_rtl_of_none (str1 str2 s : List Nat)
    (hocc : m_str1ng_strstr_r s str1 = none) :
    spec_replace_rtl str1 str2 s = s := by
  rw [spec_replace_rtl]
  split
  · rfl
  · split
    · rfl
    · rename_i p h
      rw [h] at hocc
      cases hocc

/-- Unfolding of spec_replace_rtl at the rightmost occurrence. -/
theorem spec_replace_rtl_of_some (str1 str2 s : List Nat) (h1 : str1 ≠ [])
    (p : Nat) (hocc : m_str1ng_strstr_r s str1 = some p) :
    spec_replace_rtl str1 str2 s =
      spec_replace_rtl str1 str2 (s.take p) ++ str2 ++ s.drop (p + str1.length) := by
  conv_lhs => rw [spec_replace_rtl]
  rw [dif_neg h1]
  split
  · rename_i h
    rw [h] at hocc
    cases hocc
  · rename_i q h
    rw [h] at hocc
    injection hocc with h2
    subst h2
    rfl

/-- When no occurrence is found anywhere, the left-to-right spec
replacement keeps the string. -/
theorem spec_replace_ltr_of_strstr_none (str1 str2 : List Nat) (h1 : str1 ≠ []) :
    ∀ s, m_strstr s str1 = none → spec_replace_ltr str1 str2 s = s := by
  intro s
  induction s with
  | nil => intro _; exact spec_replace_ltr_nil str1 str2 h1
  | cons c t ih =>
    intro h
    rw [m_strstr_cons] at h
    split at h
    · cases h
    · rename_i hsw
      rw [spec_replace_ltr_of_miss str1 str2 c t (by simp [hsw])]
      rw [ih (by simpa using h)]

/-- spec_replace_ltr at the first strstr occurrence: keep the gap,
emit the replacement, continue past the occurrence. -/
theorem spec_replace_ltr_of_strstr_some (str1 str2 : List Nat) (h1 : str1 ≠ []) :
    ∀ s i, m_strstr s str1 = some i →
      spec_replace_ltr str1 str2 s =
        s.take i ++ str2 ++ spec_replace_ltr str1 str2 (s.drop (i + str1.length)) := by
  intro s
  induction s with
  | nil =>
    intro i h
    rw [m_strstr_nil str1 h1] at h
    cases h
  | cons c t ih =>
    intro i h
    rw [m_strstr_cons] at h
    split at h
    · rename_i hsw
      injection h with h0
      subst h0
      rw [spec_replace_ltr_of_hit str1 str2 (c :: t) h1 hsw]
      simp
    · rename_i hsw
      rcases hj : m_strstr t str1 with _ | j
      · rw [hj] at h
        cases h
      · rw [hj] at h
        have hi : i = j + 1 := by simpa using h.symm
        subst hi
        rw [spec_replace_ltr_of_miss str1 str2 c t (by simp [hsw])]
        rw [ih j hj]
        simp only [List.take_succ_cons, List.cons_append]
        rw [show j + 1 + str1.length = (j + str1.length) + 1 by omega]
        simp only [List.drop_succ_cons]

/-- The forward in-place pass of replace-all computes exactly the
left-to-right, non-overlapping, first-match-wins replacement, whenever
the fuel exceeds the string length (as it does at the call site). -/
theorem m_str1ng_replace_all_str_1ge2_loop_eq_ltr (str1 str2 : List Nat)
    (h1 : str1 ≠ []) :
    ∀ fuel s, s.length < fuel →
      m_str1ng_replace_all_str_1ge2_loop fuel str1 str2 s =
        spec_replace_ltr str1 str2 s := by
  have hlen : str1.length ≠ 0 := by
    rcases str1 with _ | ⟨x, xs⟩
    · exact absurd rfl h1
    · simp
  intro fuel
  induction fuel with
  | zero =>
    intro s hs
    simp at hs
  | succ n ih =>
    intro s hs
    rcases hocc : m_strstr s str1 with _ | i
    · rw [m_1ge2_loop_of_none n str1 str2 s hocc,
          spec_replace_ltr_of_strstr_none str1 str2 h1 s hocc]
    · rw [m_1ge2_loop_of_some n str1 str2 s h1 i hocc]
      rw [spec_replace_ltr_of_strstr_some str1 str2 h1 s i hocc]
      have hd : (s.drop (i + str1.length)).length < n := by
        rcases s with _ | ⟨c, t⟩
        · rw [m_strstr_nil str1 h1] at hocc
          cases hocc
        · simp at hs ⊢
          omega
      rw [ih (s.drop (i + str1.length)) hd]

/-- The reverse pass of replace-all computes exactly the right-to-left,
non-overlapping, first-match-from-the-right replacement (followed by
whatever already sits in the accumulated high block), whenever the fuel
exceeds the length of the unprocessed part. -/
theorem m_str1ng_replace_all_str_1lo2_loop_eq_rtl (str1 str2 : List Nat)
    (h1 : str1 ≠ []) :
    ∀ fuel pre, pre.length < fuel → ∀ acc,
      m_str1ng_replace_all_str_1lo2_loop fuel str1 str2 pre acc =
        spec_replace_rtl str1 str2 pre ++ acc := by
  have hlen : str1.length ≠ 0 := by
    rcases str1 with _ | ⟨x, xs⟩
    · exact absurd rfl h1
    · simp
  intro fuel
  induction fuel with
  | zero =>
    intro pre hn
    simp at hn
  | succ n ih =>
    intro pre hn acc
    rcases hocc : m_str1ng_strstr_r pre str1 with _ | p
    · rw [m_1lo2_loop_of_none n str1 str2 pre acc hocc,
          spec_replace_rtl_of_none str1 str2 pre hocc]
    · have hb := m_str1ng_strstr_r_some_le pre str1 p hocc
      rw [m_1lo2_loop_of_some n str1 str2 pre acc h1 p hocc]
      rw [spec_replace_rtl_of_some str1 str2 pre h1 p hocc]
      rw [ih (pre.take p) (by simp; omega) (str2 ++ pre.drop (p + str1.length) ++ acc)]
      simp [List.append_assoc]

/-! ## Theorems: representation-layer helper lemmas -/

/-- The 8 little-endian bytes of a size_t, spelled out. -/
theorem m_le_encode8_eq (n : Nat) :
    m_le_encode8 n =
      [n / 256 ^ 0 % 256, n / 256 ^ 1 % 256, n / 256 ^ 2 % 256, n / 256 ^ 3 % 256,
       n / 256 ^ 4 % 256, n / 256 ^ 5 % 256, n / 256 ^ 6 % 256, n / 256 ^ 7 % 256] := rfl

/-- Encoding then decoding a size_t value reduces it modulo 2 to the
64. -/
theorem m_le_decode_encode8 (n : Nat) :
    m_le_decode (m_le_encode8 n) = n % 2 ^ 64 := by
  rw [m_le_encode8_eq]
  simp only [m_le_decode, List.foldr]
  norm_num
  omega

/-- The encoding always has 8 bytes. -/
theorem m_le_encode8_length (n : Nat) : (m_le_encode8 n).length = 8 := rfl

/-- Every encoded byte is below 256. -/
theorem m_le_encode8_lt (n : Nat) : ∀ b ∈ m_le_encode8 n, b < 256 := by
  rw [m_le_encode8_eq]
  intro b hb
  simp only [List.mem_cons, List.not_mem_nil, or_false] at hb
  rcases hb with h | h | h | h | h | h | h | h <;> subst h <;>
    exact Nat.mod_lt _ (by norm_num)

/-- A little-endian byte list decodes below 256 to its length. -/
theorem m_le_decode_lt (l : List Nat) (hl : ∀ b ∈ l, b < 256) :
    m_le_decode l < 256 ^ l.length := by
  induction l with
  | nil => simp [m_le_decode]
  | cons b t ih =>
    have hb := hl b (List.mem_cons_self b t)
    have ht := ih (fun x hx => hl x (List.mem_cons_of_mem b hx))
    simp only [m_le_decode, List.foldr] at ht ⊢
    rw [List.length_cons, pow_succ, Nat.mul_comm (256 ^ t.length) 256]
    omega

/-- m_memread produces exactly n bytes. -/
theorem m_memread_length (l : List Nat) (n : Nat) : (m_memread l n).length = n := by
  simp [m_memread]

/-- Reading inside the read window gives the original byte. -/
theorem m_memread_getD (l : List Nat) (n i : Nat) (h : i < n) :
    (m_memread l n).getD i 0 = l.getD i 0 := by
  simp only [m_memread, List.getD_eq_getElem?_getD, List.getElem?_map,
    List.getElem?_range h]
  rfl

/-- Re-reading a window of a window reads the original buffer. -/
theorem m_memread_memread (l : List Nat) (m n : Nat) (h : m ≤ n) :
    m_memread (m_memread l n) m = m_memread l m := by
  unfold m_memread
  refine List.map_congr_left ?_
  intro i hi
  have : i < m := List.mem_range.mp hi
  exact m_memread_getD l n i (by omega)

/-- strlen is n as soon as the first n bytes are nonzero and the byte
at n reads zero. -/
theorem m_strlen_eq_of (l : List Nat) :
    ∀ n, (∀ i, i < n → l.getD i 0 ≠ 0) → l.getD n 0 = 0 → m_strlen l = n := by
  induction l with
  | nil =>
    intro n hlt _
    rcases n with _ | k
    · rfl
    · exact absurd rfl (hlt 0 (by omega))
  | cons b t ih =>
    intro n hlt h0
    rcases n with _ | k
    · simp only [List.getD_cons_zero] at h0
      simp [m_strlen, h0]
    · have hb : b ≠ 0 := by simpa using hlt 0 (by omega)
      simp only [m_strlen, if_neg hb]
      rw [ih k (fun i hi => by simpa using hlt (i + 1) (by omega))
            (by simpa using h0)]

/-- Bytes before the strlen index are nonzero. -/
theorem m_strlen_getD_lt (l : List Nat) :
    ∀ i, i < m_strlen l → l.getD i 0 ≠ 0 := by
  induction l with
  | nil => intro i hi; simp [m_strlen] at hi
  | cons b t ih =>
    intro i hi
    by_cases hb : b = 0
    · simp [m_strlen, hb] at hi
    · rcases i with _ | j
      · simpa using hb
      · simp only [m_strlen, if_neg hb] at hi
        simpa using ih j (by omega)

/-- The byte at the strlen index reads zero. -/
theorem m_strlen_getD_self (l : List Nat) : l.getD (m_strlen l) 0 = 0 := by
  induction l with
  | nil => rfl
  | cons b t ih =>
    by_cases hb : b = 0
    · simp [m_strlen, hb]
    · simp only [m_strlen, if_neg hb]
      simpa using ih

/-- Under representation well-formedness every byte read from the
union is below 256. -/
theorem m_wf_u_getD_lt (s : MString) (hwf : m_string_wf s = true) (i : Nat) :
    s.u.getD i 0 < 256 := by
  simp only [m_string_wf, Bool.and_eq_true, beq_iff_eq, List.all_eq_true,
    decide_eq_true_eq] at hwf
  by_cases h : i < s.u.length
  · rw [List.getD_eq_getElem?_getD, List.getElem?_eq_getElem h]
    exact hwf.1.2 _ (s.u.getElem_mem h)
  · rw [List.getD_eq_getElem?_getD, List.getElem?_eq_none (by omega)]
    simp

/-- Little-endian decoding of one byte and a tail. -/
theorem m_le_decode_cons (b : Nat) (l : List Nat) :
    m_le_decode (b :: l) = b + 256 * m_le_decode l := rfl

/-- Little-endian decoding of a concatenation. -/
theorem m_le_decode_append (l1 l2 : List Nat) :
    m_le_decode (l1 ++ l2) = m_le_decode l1 + 256 ^ l1.length * m_le_decode l2 := by
  induction l1 with
  | nil => simp [m_le_decode]
  | cons b t ih =>
    rw [List.cons_append, m_le_decode_cons, m_le_decode_cons, ih,
        List.length_cons, pow_succ]
    ring

/-- Unpacking the string contract into its three useful conjuncts. -/
theorem M_STR1NG_CONTRACT_unpack (v : MString) (h : M_STR1NG_CONTRACT v = true) :
    string_size v = m_strlen (string_get_cstr v) ∧
    (string_get_cstr v).getD (string_size v) 0 = 0 ∧
    string_size v < string_capacity v := by
  simp only [M_STR1NG_CONTRACT, Bool.and_eq_true, beq_iff_eq,
    decide_eq_true_eq] at h
  exact ⟨h.1.1.1, h.1.1.2, h.1.2⟩

/-- For a contract-satisfying stack string the stored size byte is at
most 14. -/
theorem m_stack_size_byte_le (s : MString) (hst : m_str1ng_stack_p s = true)
    (hc : M_STR1NG_CONTRACT s = true) : s.u.getD 15 0 ≤ 14 := by
  have h := (M_STR1NG_CONTRACT_unpack s hc).2.2
  rw [string_size, if_pos hst, string_capacity, if_pos hst] at h
  unfold m_size_t_of_char at h
  split at h
  · omega
  · omega

/-- For a contract-satisfying, well-formed string, the heap alloc field
of the union (bytes 8 to 15) decodes strictly below 2 to the 64 minus
2 whenever the string is stack based (its top byte is the small stack
size byte). -/
theorem m_stack_alloc_field_lt (s : MString) (hwf : m_string_wf s = true)
    (hst : m_str1ng_stack_p s = true) (hc : M_STR1NG_CONTRACT s = true) :
    m_le_decode (s.u.drop 8) < 2 ^ 64 - 2 := by
  have hlen : s.u.length = 16 := by
    simp only [m_string_wf, Bool.and_eq_true, beq_iff_eq] at hwf
    exact hwf.1.1
  have hb15 := m_stack_size_byte_le s hst hc
  have hsplit : s.u.drop 8 = (s.u.drop 8).take 7 ++ (s.u.drop 8).drop 7 :=
    (List.take_append_drop 7 (s.u.drop 8)).symm
  have hdd : (s.u.drop 8).drop 7 = s.u.drop 15 := by
    rw [List.drop_drop]
  have h15 : s.u.drop 15 = [s.u.getD 15 0] := by
    have h1 : s.u.drop 15 = s.u.getD 15 0 :: s.u.drop 16 := by
      rw [List.getD_eq_getElem?_getD, List.getElem?_eq_getElem (by omega)]
      exact List.drop_eq_getElem_cons (by omega)
    rw [h1, List.drop_eq_nil_of_le (by omega)]
  have htlen : ((s.u.drop 8).take 7).length = 7 := by
    simp [hlen]
  have htb : m_le_decode ((s.u.drop 8).take 7) < 256 ^ 7 := by
    have := m_le_decode_lt ((s.u.drop 8).take 7) ?_
    · rwa [htlen] at this
    · intro b hb
      have hmem : b ∈ s.u := List.mem_of_mem_drop (List.mem_of_mem_take hb)
      simp only [m_string_wf, Bool.and_eq_true, beq_iff_eq, List.all_eq_true,
        decide_eq_true_eq] at hwf
      exact hwf.1.2 b hmem
  calc m_le_decode (s.u.drop 8)
      = m_le_decode ((s.u.drop 8).take 7) +
          256 ^ 7 * m_le_decode ((s.u.drop 8).drop 7) := by
        conv_lhs => rw [hsplit]
        rw [m_le_decode_append, htlen]
    _ = m_le_decode ((s.u.drop 8).take 7) + 256 ^ 7 * (s.u.getD 15 0) := by
        rw [hdd, h15]
        simp [m_le_decode]
    _ < 2 ^ 64 - 2 := by omega

/-- The size field of an OOR marker reads as 2 to the 64 minus 1, a
value no contract-satisfying string can have as its size. -/
theorem m_oor_size (j : MString) (n : Nat) (hwfj : m_string_wf j = true)
    (hn : n = 0 ∨ n = 1) :
    string_size (string_oor_set j n) = 2 ^ 64 - 1 := by
  have hlen : (j.u.take 8).length = 8 := by
    simp only [m_string_wf, Bool.and_eq_true, beq_iff_eq] at hwfj
    simp [hwfj.1.1]
  rw [string_oor_set]
  rw [show string_size ⟨j.u.take 8 ++ m_le_encode8 (2 ^ 64 - 1 - n), none⟩ =
      m_size_t_of_char ((j.u.take 8 ++ m_le_encode8 (2 ^ 64 - 1 - n)).getD 15 0) from rfl]
  have hg : (j.u.take 8 ++ m_le_encode8 (2 ^ 64 - 1 - n)).getD 15 0 =
      (m_le_encode8 (2 ^ 64 - 1 - n)).getD 7 0 := by
    rw [List.getD_eq_getElem?_getD, List.getD_eq_getElem?_getD,
        List.getElem?_append_right (by omega), hlen]
  rw [hg]
  rcases hn with h | h <;> subst h <;> rfl


/-- The size of a contract-satisfying well-formed string is at most
2 to the 64 minus 2 and in particular differs from the OOR size. -/
theorem m_size_ne_oor (s : MString) (hwf : m_string_wf s = true)
    (hc : M_STR1NG_CONTRACT s = true) : string_size s < 2 ^ 64 - 1 := by
  have h := (M_STR1NG_CONTRACT_unpack s hc).2.2
  rcases hst : m_str1ng_stack_p s with _ | _
  · rw [string_capacity, if_neg (by simp [hst])] at h
    have hcap : m_le_decode (s.u.drop 8) < 256 ^ (s.u.drop 8).length := by
      refine m_le_decode_lt _ ?_
      intro b hb
      simp only [m_string_wf, Bool.and_eq_true, beq_iff_eq, List.all_eq_true,
        decide_eq_true_eq] at hwf
      exact hwf.1.2 b (List.mem_of_mem_drop hb)
    have hlen : (s.u.drop 8).length = 8 := by
      simp only [m_string_wf, Bool.and_eq_true, beq_iff_eq] at hwf
      simp [hwf.1.1]
    rw [hlen] at hcap
    norm_num at hcap
    omega
  · rw [string_capacity, if_pos hst] at h
    omega

/-- Claim C10. For a contract-satisfying well-formed string s and
n in 0 or 1, string_oor_equal_p s n is false, and string_equal_p
returns false in both argument orders when comparing s with an OOR
marker written over any well-formed junk value j: the sizes can never
match (the OOR marker reads size 2 to the 64 minus 1 through the
sign-extended stack size byte), so the comparison short-circuits
before any dereference. -/
theorem string_oor_equal_spec (s j : MString) (n : Nat)
    (hwfs : m_string_wf s = true) (hwfj : m_string_wf j = true)
    (hc : M_STR1NG_CONTRACT s = true) (hn : n = 0 ∨ n = 1) :
    string_oor_equal_p s n = false ∧
    string_equal_p (string_oor_set j n) s = false ∧
    string_equal_p s (string_oor_set j n) = false := by
  have hso := m_oor_size j n hwfj hn
  have hss := m_size_ne_oor s hwfs hc
  refine ⟨?_, ?_, ?_⟩
  · rcases hst : m_str1ng_stack_p s with _ | _
    · simp [string_oor_equal_p, hst]
    · have hlt := m_stack_alloc_field_lt s hwfs hst hc
      simp only [string_oor_equal_p, Bool.and_eq_false_iff]
      right
      simp only [beq_eq_false_iff_ne, ne_eq]
      rcases hn with h | h <;> subst h <;> omega
  · have hne : string_size (string_oor_set j n) ≠ string_size s := by omega
    simp [string_equal_p, hne]
  · have hne : string_size s ≠ string_size (string_oor_set j n) := by omega
    simp [string_equal_p, hne]

/-- Witness for claim C10 at a concrete stack string (the contents are
the two bytes a b) and a concrete junk value, for n = 0. -/
theorem string_oor_equal_spec_witness :
    string_oor_equal_p ⟨[97, 98, 0, 0, 0, 0, 0, 0, 0, 0, 0, 0, 0, 0, 0, 2], none⟩ 0 = false ∧
    string_equal_p (string_oor_set string_init 0)
      ⟨[97, 98, 0, 0, 0, 0, 0, 0, 0, 0, 0, 0, 0, 0, 0, 2], none⟩ = false ∧
    string_equal_p ⟨[97, 98, 0, 0, 0, 0, 0, 0, 0, 0, 0, 0, 0, 0, 0, 2], none⟩
      (string_oor_set string_init 0) = false :=
  string_oor_equal_spec ⟨[97, 98, 0, 0, 0, 0, 0, 0, 0, 0, 0, 0, 0, 0, 0, 2], none⟩
    string_init 0 (by decide) (by decide) (by decide) (Or.inl rfl)

/-! ## Theorems: move operations -/

/-- Claim C9 as amended. After string_init_move (and string_move) the
destination holds exactly the former value of the source, contract
included; the source has its pointer nulled, so it is in inline mode
and clearing (destroying) it frees nothing, which makes the transfer
safe against double free.  The source is not in general an empty
string: its union bytes are untouched. -/
theorem string_init_move_spec (v1 v2 : MString)
    (hc : M_STR1NG_CONTRACT v2 = true) :
    (string_init_move v2).1 = v2 ∧
    M_STR1NG_CONTRACT (string_init_move v2).1 = true ∧
    m_str1ng_stack_p (string_init_move v2).2 = true ∧
    (string_clear (string_init_move v2).2).2 = false ∧
    (string_move v1 v2).1 = v2 ∧
    m_str1ng_stack_p (string_move v1 v2).2.1 = true :=
  ⟨rfl, hc, rfl, rfl, rfl, rfl⟩

/-- Witness for the amended claim C9 at a concrete heap string. -/
theorem string_init_move_spec_witness :
    (string_init_move ⟨m_le_encode8 3 ++ m_le_encode8 32, some [97, 98, 99, 0]⟩).1 =
      ⟨m_le_encode8 3 ++ m_le_encode8 32, some [97, 98, 99, 0]⟩ ∧
    M_STR1NG_CONTRACT
      (string_init_move ⟨m_le_encode8 3 ++ m_le_encode8 32, some [97, 98, 99, 0]⟩).1 = true ∧
    m_str1ng_stack_p
      (string_init_move ⟨m_le_encode8 3 ++ m_le_encode8 32, some [97, 98, 99, 0]⟩).2 = true ∧
    (string_clear
      (string_init_move ⟨m_le_encode8 3 ++ m_le_encode8 32, some [97, 98, 99, 0]⟩).2).2 = false ∧
    (string_move string_init ⟨m_le_encode8 3 ++ m_le_encode8 32, some [97, 98, 99, 0]⟩).1 =
      ⟨m_le_encode8 3 ++ m_le_encode8 32, some [97, 98, 99, 0]⟩ ∧
    m_str1ng_stack_p
      (string_move string_init ⟨m_le_encode8 3 ++ m_le_encode8 32, some [97, 98, 99, 0]⟩).2.1 = true :=
  string_init_move_spec string_init
    ⟨m_le_encode8 3 ++ m_le_encode8 32, some [97, 98, 99, 0]⟩ (by decide)

/-- Counterexample to claim C9 as stated: moving from the inline
string holding the five bytes of hello leaves the source with its pointer
nulled but its buffer intact, so reading the source afterwards yields
the original five-byte contents, not an empty string. -/
theorem string_init_move_counterexample :
    M_STR1NG_CONTRACT
      ⟨[104, 101, 108, 108, 111, 0, 0, 0, 0, 0, 0, 0, 0, 0, 0, 5], none⟩ = true ∧
    string_size
      (string_init_move
        ⟨[104, 101, 108, 108, 111, 0, 0, 0, 0, 0, 0, 0, 0, 0, 0, 5], none⟩).2 = 5 ∧
    string_get_contents
      (string_init_move
        ⟨[104, 101, 108, 108, 111, 0, 0, 0, 0, 0, 0, 0, 0, 0, 0, 5], none⟩).2 =
      [104, 101, 108, 108, 111] := by
  decide

/-! ## Theorems: replace-all on string objects, contract breakage -/

/-- Claim C3 as amended.  The shrinking branch is exactly the
left-to-right, non-overlapping, first-match-wins replacement; the
growing branch is exactly the right-to-left, non-overlapping,
first-match-from-the-right replacement; and the two concrete examples
of the claim hold (bytes 97 and 98 are the letters a and b). -/
theorem string_replace_all_str_spec :
    (∀ str1 str2 s : List Nat, str1 ≠ [] →
      m_str1ng_replace_all_str_1ge2_loop (s.length + 1) str1 str2 s =
        spec_replace_ltr str1 str2 s) ∧
    (∀ str1 str2 pre : List Nat, str1 ≠ [] →
      m_str1ng_replace_all_str_1lo2_loop (pre.length + 1) str1 str2 pre [] =
        spec_replace_rtl str1 str2 pre) ∧
    (string_replace_all_str
        ⟨[97, 97, 97, 97, 0, 0, 0, 0, 0, 0, 0, 0, 0, 0, 0, 4], none⟩
        [97, 97] [98]).map string_get_contents = some [98, 98] ∧
    (string_replace_all_str
        ⟨[97, 97, 97, 0, 0, 0, 0, 0, 0, 0, 0, 0, 0, 0, 0, 3], none⟩
        [97] [98, 98]).map string_get_contents = some [98, 98, 98, 98, 98, 98] := by
  refine ⟨?_, ?_, by decide, by decide⟩
  · intro str1 str2 s h1
    exact m_str1ng_replace_all_str_1ge2_loop_eq_ltr str1 str2 h1 (s.length + 1) s
      (Nat.lt_succ_self _)
  · intro str1 str2 pre h1
    have h := m_str1ng_replace_all_str_1lo2_loop_eq_rtl str1 str2 h1 (pre.length + 1) pre
      (Nat.lt_succ_self _) []
    simpa using h

/-- Witness for the amended claim C3: both branch characterizations at
concrete inputs. -/
theorem string_replace_all_str_spec_witness :
    m_str1ng_replace_all_str_1ge2_loop 6 [97, 98] [99] [97, 97, 98, 97, 98] =
      spec_replace_ltr [97, 98] [99] [97, 97, 98, 97, 98] ∧
    m_str1ng_replace_all_str_1lo2_loop 4 [97, 97] [98, 98, 98] [97, 97, 97] [] =
      spec_replace_rtl [97, 97] [98, 98, 98] [97, 97, 97] :=
  ⟨string_replace_all_str_spec.1 [97, 98] [99] [97, 97, 98, 97, 98] (by decide),
   string_replace_all_str_spec.2.1 [97, 97] [98, 98, 98] [97, 97, 97] (by decide)⟩

/-- Counterexample to claim C3 as stated, in two parts.  First, the
result can contain a fresh occurrence of the pattern even when the
replacement does not contain it: on contents a a b with pattern a b and
replacement b the result is a b, which is the pattern itself.  Second,
the growing branch is not the left-to-right scan: on contents a a a
with pattern a a and replacement b b b the code yields a b b b
(rightmost occurrence replaced) while the left-to-right scan yields
b b b a. -/
theorem string_replace_all_str_counterexample :
    (string_replace_all_str
        ⟨[97, 97, 98, 0, 0, 0, 0, 0, 0, 0, 0, 0, 0, 0, 0, 3], none⟩
        [97, 98] [98]).map string_get_contents = some [97, 98] ∧
    m_strstr [97, 98] [97, 98] = some 0 ∧
    m_strstr [98] [97, 98] = none ∧
    (string_replace_all_str
        ⟨[97, 97, 97, 0, 0, 0, 0, 0, 0, 0, 0, 0, 0, 0, 0, 3], none⟩
        [97, 97] [98, 98, 98]).map string_get_contents = some [97, 98, 98, 98] ∧
    spec_replace_ltr [97, 97] [98, 98, 98] [97, 97, 97] = [98, 98, 98, 97] ∧
    ([97, 98, 98, 98] : List Nat) ≠ [98, 98, 98, 97] := by
  refine ⟨by decide, by decide, by decide, by decide, ?_, by decide⟩
  rw [spec_replace_ltr_of_hit [97, 97] [98, 98, 98] [97, 97, 97] (by decide) (by decide)]
  rw [show List.drop (List.length [97, 97]) [97, 97, 97] = [97] from rfl]
  rw [spec_replace_ltr_of_miss [97, 97] [98, 98, 98] 97 [] (by decide)]
  rw [spec_replace_ltr_nil [97, 97] [98, 98, 98] (by decide)]
  decide

/-- Claim C4 (code bug).  Starting from the contract-satisfying heap
string of fifteen bytes a with capacity exactly 16 (reachable through
string_set_str then string_reserve 16), replacing the eight-byte
pattern by the nine-byte replacement in the growing branch yields a
string whose size equals its capacity 16: the pre-grow bound
1 + size / len(pattern) * len(replacement) = 10 did not account for
the residue bytes, the final NUL store lands at index 16, one past the
16-byte allocation, and the size-below-capacity contract assert
fails. -/
theorem m_str1ng_replace_all_str_1lo2_overflow :
    ((string_set_str string_init (List.replicate 15 97)).map
        (fun v => string_reserve v 16)).map
        (fun v => (M_STR1NG_CONTRACT v, string_size v, string_capacity v)) =
      some (true, 15, 16) ∧
    (((string_set_str string_init (List.replicate 15 97)).map
        (fun v => string_reserve v 16)).bind
        (fun v => string_replace_all_str v (List.replicate 8 97) (List.replicate 9 97))).map
        (fun w => (string_size w, string_capacity w, M_STR1NG_CONTRACT w)) =
      some (16, 16, false) := by
  decide

/-- Claim C1 (code bug).  The string contract is not preserved by
every public operation on every contract-satisfying input: the same
replace-all growing branch, here on fifteen bytes c with capacity 16,
pattern of eight c and replacement of nine c, turns a
contract-satisfying string into one whose contract evaluates false
(its size equals its capacity). -/
theorem M_STR1NG_CONTRACT_violation :
    ((string_set_str string_init (List.replicate 15 99)).map
        (fun v => string_reserve v 16)).map M_STR1NG_CONTRACT = some true ∧
    (((string_set_str string_init (List.replicate 15 99)).map
        (fun v => string_reserve v 16)).bind
        (fun v => string_replace_all_str v (List.replicate 8 99) (List.replicate 9 99))).map
        M_STR1NG_CONTRACT = some false := by
  decide

/-! ## Theorems: capacity management (m_str1ng_fit2size and string_reserve) -/

/-- m_str1ng_set_size never changes the storage mode. -/
theorem m_set_size_stack_p (s : MString) (n : Nat) :
    m_str1ng_stack_p (m_str1ng_set_size s n) = m_str1ng_stack_p s := by
  rw [m_str1ng_set_size]
  split <;> rfl

/-- m_mstr_write never changes the storage mode. -/
theorem m_mstr_write_stack_p (s : MString) (pos : Nat) (bytes : List Nat) :
    m_str1ng_stack_p (m_mstr_write s pos bytes) = m_str1ng_stack_p s := by
  rcases s with ⟨u, _ | buf⟩ <;> rfl

/-- The capacity of a heap value assembled from the first 8 union bytes
and a fresh alloc field is the decoding of that field. -/
theorem m_capacity_mk_heap (u e b : List Nat) (hu : u.length = 16) :
    string_capacity ⟨u.take 8 ++ e, some b⟩ = m_le_decode e := by
  rw [string_capacity, if_neg (by simp [m_str1ng_stack_p])]
  have h8 : (u.take 8).length = 8 := by simp [hu]
  rw [List.drop_left' h8]

/-- The size of a heap value assembled from the first 8 union bytes and
a fresh alloc field is the decoding of those size bytes. -/
theorem m_size_mk_heap (u e b : List Nat) (hu : u.length = 16) :
    string_size ⟨u.take 8 ++ e, some b⟩ = m_le_decode (u.take 8) := by
  rw [string_size, if_neg (by simp [m_str1ng_stack_p])]
  have h8 : (u.take 8).length = 8 := by simp [hu]
  rw [List.take_left' h8]

/-- m_str1ng_fit2size never demotes a heap string to the inline
buffer. -/
theorem m_fit2size_heap (w : MString) (b : Nat) (hh : m_str1ng_stack_p w = false) :
    ∀ v2, m_str1ng_fit2size w b = some v2 → m_str1ng_stack_p v2 = false := by
  intro v2 hfit
  simp only [m_str1ng_fit2size] at hfit
  split at hfit
  · split at hfit
    · cases hfit
    · injection hfit with h
      subst h
      rfl
  · injection hfit with h
    subst h
    exact hh

/-- string_set_str never demotes a heap string. -/
theorem m_set_str_heap (w : MString) (str : List Nat) (hh : m_str1ng_stack_p w = false) :
    ∀ v2, string_set_str w str = some v2 → m_str1ng_stack_p v2 = false := by
  intro v2 hset
  rw [string_set_str] at hset
  rcases hfit : m_str1ng_fit2size w (str.length + 1) with _ | v3
  · rw [hfit] at hset
    cases hset
  · rw [hfit] at hset
    injection hset with h
    subst h
    rw [m_set_size_stack_p, m_mstr_write_stack_p]
    exact m_fit2size_heap w (str.length + 1) hh v3 hfit

/-- string_replace_all_str never demotes a heap string. -/
theorem m_replace_heap (w : MString) (s1 s2 : List Nat) (hh : m_str1ng_stack_p w = false) :
    ∀ v2, string_replace_all_str w s1 s2 = some v2 → m_str1ng_stack_p v2 = false := by
  intro v2 hrep
  rw [string_replace_all_str] at hrep
  split at hrep
  · injection hrep with h
    subst h
    simp only [m_str1ng_replace_all_str_1ge2]
    rw [m_set_size_stack_p, m_mstr_write_stack_p]
    exact hh
  · simp only [m_str1ng_replace_all_str_1lo2] at hrep
    rcases hfit : m_str1ng_fit2size w ((1 + string_size w / s1.length * s2.length) % 2 ^ 64)
      with _ | v3
    · rw [hfit] at hrep
      cases hrep
    · rw [hfit] at hrep
      injection hrep with h
      subst h
      rw [m_set_size_stack_p, m_mstr_write_stack_p]
      exact m_fit2size_heap w _ hh v3 hfit

/-- Claim C6.  For a well-sized string value, a request not exceeding
the current capacity leaves the string untouched; a strictly larger
request computes the new allocation requested + requested / 2 in size_t
arithmetic, and when that computed allocation fails to exceed the old
capacity (the overflow case) the operation is fatal (M_MEMORY_FULL
followed by abort, modelled as none) for every requested size — no
usable value is returned; otherwise the result is heap allocated with
capacity exactly requested + requested / 2. -/
theorem m_str1ng_fit2size_spec (v : MString) (a : Nat) (hu : v.u.length = 16) :
    (a ≤ string_capacity v → m_str1ng_fit2size v a = some v) ∧
    (string_capacity v < a → (a + a / 2) % 2 ^ 64 ≤ string_capacity v →
      m_str1ng_fit2size v a = none) ∧
    (string_capacity v < a → string_capacity v < (a + a / 2) % 2 ^ 64 →
      (m_str1ng_fit2size v a).map string_capacity = some ((a + a / 2) % 2 ^ 64) ∧
      (m_str1ng_fit2size v a).map m_str1ng_stack_p = some false) := by
  obtain ⟨u, ptr⟩ := v
  refine ⟨?_, ?_, ?_⟩
  · intro hle
    simp only [m_str1ng_fit2size]
    rw [if_neg (by omega)]
  · intro hgt hof
    simp only [m_str1ng_fit2size]
    rw [if_pos hgt, if_pos hof]
  · intro hgt hok
    rcases ptr with _ | buf
    · simp only [m_str1ng_fit2size]
      rw [if_pos hgt, if_neg (by omega)]
      refine ⟨?_, rfl⟩
      rw [show (some (⟨u.take 8 ++ m_le_encode8 ((a + a / 2) % 2 ^ 64),
            some (m_memread u (m_size_t_of_char (u.getD 15 0) + 1))⟩ : MString)).map
            string_capacity =
          some (string_capacity ⟨u.take 8 ++ m_le_encode8 ((a + a / 2) % 2 ^ 64),
            some (m_memread u (m_size_t_of_char (u.getD 15 0) + 1))⟩) from rfl]
      rw [m_capacity_mk_heap u _ _ hu, m_le_decode_encode8,
          Nat.mod_mod_of_dvd _ dvd_rfl]
    · simp only [m_str1ng_fit2size]
      rw [if_pos hgt, if_neg (by omega)]
      refine ⟨?_, rfl⟩
      rw [show (some (⟨u.take 8 ++ m_le_encode8 ((a + a / 2) % 2 ^ 64),
            some buf⟩ : MString)).map string_capacity =
          some (string_capacity ⟨u.take 8 ++ m_le_encode8 ((a + a / 2) % 2 ^ 64),
            some buf⟩) from rfl]
      rw [m_capacity_mk_heap u _ _ hu, m_le_decode_encode8,
          Nat.mod_mod_of_dvd _ dvd_rfl]

/-- Witness for claim C6: a heap string of three bytes with capacity
2 to the 63; the request 3 times 2 to the 62 exceeds the capacity, the
grown allocation wraps around 2 to the 64 down to 2 to the 61, which no
longer exceeds the old capacity, and the operation is fatal. -/
theorem m_str1ng_fit2size_spec_witness :
    m_str1ng_fit2size ⟨m_le_encode8 3 ++ m_le_encode8 (2 ^ 63), some [97, 98, 99, 0]⟩
      (3 * 2 ^ 62) = none :=
  (m_str1ng_fit2size_spec ⟨m_le_encode8 3 ++ m_le_encode8 (2 ^ 63), some [97, 98, 99, 0]⟩
    (3 * 2 ^ 62) (by decide)).2.1 (by decide) (by decide)

/-- Size of a heap value whose union starts with 8 explicit size
bytes. -/
theorem m_size_mk_heap2 (e1 e2 b : List Nat) (h8 : e1.length = 8) :
    string_size ⟨e1 ++ e2, some b⟩ = m_le_decode e1 := by
  rw [string_size, if_neg (by simp [m_str1ng_stack_p])]
  rw [List.take_left' h8]

/-- Capacity of a heap value whose union starts with 8 explicit size
bytes. -/
theorem m_capacity_mk_heap2 (e1 e2 b : List Nat) (h8 : e1.length = 8) :
    string_capacity ⟨e1 ++ e2, some b⟩ = m_le_decode e2 := by
  rw [string_capacity, if_neg (by simp [m_str1ng_stack_p])]
  rw [List.drop_left' h8]

/-- Reading the same window from buffers that agree on it gives the
same bytes. -/
theorem m_memread_congr (l1 l2 : List Nat) (n : Nat)
    (h : ∀ i, i < n → l1.getD i 0 = l2.getD i 0) :
    m_memread l1 n = m_memread l2 n := by
  unfold m_memread
  refine List.map_congr_left ?_
  intro i hi
  exact h i (List.mem_range.mp hi)

/-- Evaluation of the demotion branch of string_reserve: copying the
first sz + 1 heap bytes into the union and storing the size in the
stack size byte yields a stack string of the same size and contents
with the inline capacity 15. -/
theorem m_demote_eval (buf u2 : List Nat) (sz : Nat) (hsz : sz ≤ 14)
    (hlen : (m_memread buf (sz + 1) ++ u2).length = 16) :
    string_size (m_str1ng_set_size ⟨m_memread buf (sz + 1) ++ u2, none⟩ sz) = sz ∧
    string_get_contents (m_str1ng_set_size ⟨m_memread buf (sz + 1) ++ u2, none⟩ sz) =
      m_memread buf sz ∧
    m_str1ng_stack_p (m_str1ng_set_size ⟨m_memread buf (sz + 1) ++ u2, none⟩ sz) = true ∧
    string_capacity (m_str1ng_set_size ⟨m_memread buf (sz + 1) ++ u2, none⟩ sz) = 15 := by
  have hmod : sz % 256 = sz := Nat.mod_eq_of_lt (by omega)
  have hset : m_str1ng_set_size ⟨m_memread buf (sz + 1) ++ u2, none⟩ sz =
      ⟨(m_memread buf (sz + 1) ++ u2).set 15 sz, none⟩ := by
    rw [show m_str1ng_set_size ⟨m_memread buf (sz + 1) ++ u2, none⟩ sz =
        ⟨(m_memread buf (sz + 1) ++ u2).set 15 (sz % 256), none⟩ from rfl, hmod]
  rw [hset]
  have hget15 : ((m_memread buf (sz + 1) ++ u2).set 15 sz).getD 15 0 = sz := by
    rw [List.getD_eq_getElem?_getD, List.getElem?_set_self (by omega)]
    rfl
  have hsize : string_size ⟨(m_memread buf (sz + 1) ++ u2).set 15 sz, none⟩ = sz := by
    rw [show string_size ⟨(m_memread buf (sz + 1) ++ u2).set 15 sz, none⟩ =
        m_size_t_of_char (((m_memread buf (sz + 1) ++ u2).set 15 sz).getD 15 0) from rfl]
    rw [hget15, m_size_t_of_char, if_pos (by omega)]
  refine ⟨hsize, ?_, rfl, ?_⟩
  · rw [string_get_contents, hsize]
    rw [show string_get_cstr ⟨(m_memread buf (sz + 1) ++ u2).set 15 sz, none⟩ =
        (m_memread buf (sz + 1) ++ u2).set 15 sz from rfl]
    refine m_memread_congr _ _ _ ?_
    intro i hilt
    rw [List.getD_eq_getElem?_getD, List.getElem?_set_ne (by omega),
        List.getElem?_append, if_pos (by rw [m_memread_length]; omega)]
    rw [← List.getD_eq_getElem?_getD]
    exact m_memread_getD buf (sz + 1) i (by omega)
  · exact rfl

/-- Evaluation of the promotion branch of string_reserve: writing the
size into the heap size field, the clamped allocation into the alloc
field and copying the sz + 1 stack bytes into a fresh heap block yields
a heap string of the same size and contents with capacity al. -/
theorem m_promote_eval (u : List Nat) (sz al : Nat) (hsz : sz ≤ 14)
    (hal : al < 2 ^ 64) :
    string_size ⟨(m_le_encode8 sz).take 8 ++ m_le_encode8 al,
      some (m_memread u (sz + 1))⟩ = sz ∧
    string_get_contents ⟨(m_le_encode8 sz).take 8 ++ m_le_encode8 al,
      some (m_memread u (sz + 1))⟩ = m_memread u sz ∧
    m_str1ng_stack_p ⟨(m_le_encode8 sz).take 8 ++ m_le_encode8 al,
      some (m_memread u (sz + 1))⟩ = false ∧
    string_capacity ⟨(m_le_encode8 sz).take 8 ++ m_le_encode8 al,
      some (m_memread u (sz + 1))⟩ = al := by
  have htake : (m_le_encode8 sz).take 8 = m_le_encode8 sz := by
    rw [← m_le_encode8_length sz, List.take_length]
  rw [htake]
  have hsize : string_size ⟨m_le_encode8 sz ++ m_le_encode8 al,
      some (m_memread u (sz + 1))⟩ = sz := by
    rw [m_size_mk_heap2 _ _ _ (m_le_encode8_length sz), m_le_decode_encode8,
        Nat.mod_eq_of_lt (by omega)]
  refine ⟨hsize, ?_, rfl, ?_⟩
  · rw [string_get_contents, hsize]
    rw [show string_get_cstr ⟨m_le_encode8 sz ++ m_le_encode8 al,
        some (m_memread u (sz + 1))⟩ = m_memread u (sz + 1) from rfl]
    exact m_memread_memread u sz (sz + 1) (by omega)
  · rw [m_capacity_mk_heap2 _ _ _ (m_le_encode8_length sz), m_le_decode_encode8,
        Nat.mod_eq_of_lt hal]

/-- Claim C7.  string_reserve on a contract-satisfying well-formed
string clamps the request to the maximum of a and size + 1 (shrink to
fit), preserves the contents and the size, and leaves the string inline
exactly when the clamped request fits the inline buffer (is below
sizeof(string_heap_ct) = 16), demoting a heap string in that case by
copying its bytes inline and dropping the heap block; otherwise the
result is heap allocated with capacity exactly the clamped request.
Moreover no other mutator ever demotes a heap string to inline:
m_str1ng_fit2size, string_set_str and string_replace_all_str all
preserve heap mode. -/
theorem string_reserve_spec (v : MString) (a : Nat) (hwf : m_string_wf v = true)
    (hc : M_STR1NG_CONTRACT v = true) (ha : a < 2 ^ 64) :
    string_get_contents (string_reserve v a) = string_get_contents v ∧
    string_size (string_reserve v a) = string_size v ∧
    m_str1ng_stack_p (string_reserve v a) =
      decide ((if string_size v + 1 > a then string_size v + 1 else a) < 16) ∧
    string_capacity (string_reserve v a) =
      (if (if string_size v + 1 > a then string_size v + 1 else a) < 16 then 15
       else if string_size v + 1 > a then string_size v + 1 else a) ∧
    (∀ w b, m_str1ng_stack_p w = false →
      (m_str1ng_fit2size w b).map m_str1ng_stack_p ≠ some true) ∧
    (∀ w str, m_str1ng_stack_p w = false →
      (string_set_str w str).map m_str1ng_stack_p ≠ some true) ∧
    (∀ w s1 s2, m_str1ng_stack_p w = false →
      (string_replace_all_str w s1 s2).map m_str1ng_stack_p ≠ some true) := by
  have hno1 : ∀ w b, m_str1ng_stack_p w = false →
      (m_str1ng_fit2size w b).map m_str1ng_stack_p ≠ some true := by
    intro w b hh hcontra
    rcases hres : m_str1ng_fit2size w b with _ | v2
    · rw [hres] at hcontra
      cases hcontra
    · rw [hres] at hcontra
      have h2 := m_fit2size_heap w b hh v2 hres
      simp [h2] at hcontra
  have hno2 : ∀ w str, m_str1ng_stack_p w = false →
      (string_set_str w str).map m_str1ng_stack_p ≠ some true := by
    intro w str hh hcontra
    rcases hres : string_set_str w str with _ | v2
    · rw [hres] at hcontra
      cases hcontra
    · rw [hres] at hcontra
      have h2 := m_set_str_heap w str hh v2 hres
      simp [h2] at hcontra
  have hno3 : ∀ w s1 s2, m_str1ng_stack_p w = false →
      (string_replace_all_str w s1 s2).map m_str1ng_stack_p ≠ some true := by
    intro w s1 s2 hh hcontra
    rcases hres : string_replace_all_str w s1 s2 with _ | v2
    · rw [hres] at hcontra
      cases hcontra
    · rw [hres] at hcontra
      have h2 := m_replace_heap w s1 s2 hh v2 hres
      simp [h2] at hcontra
  obtain ⟨hsz, h0, hlt⟩ := M_STR1NG_CONTRACT_unpack v hc
  have hu : v.u.length = 16 := by
    have h := hwf
    simp only [m_string_wf, Bool.and_eq_true, beq_iff_eq] at h
    exact h.1.1
  have hmain : string_get_contents (string_reserve v a) = string_get_contents v ∧
      string_size (string_reserve v a) = string_size v ∧
      m_str1ng_stack_p (string_reserve v a) =
        decide ((if string_size v + 1 > a then string_size v + 1 else a) < 16) ∧
      string_capacity (string_reserve v a) =
        (if (if string_size v + 1 > a then string_size v + 1 else a) < 16 then 15
         else if string_size v + 1 > a then string_size v + 1 else a) := by
    rcases hp : v.ptr with _ | buf
    · -- stack mode
      have hst : m_str1ng_stack_p v = true := by simp [m_str1ng_stack_p, hp]
      have hsb := m_stack_size_byte_le v hst hc
      have hsz14 : string_size v ≤ 14 := by
        rw [string_size, if_pos hst]
        rw [m_size_t_of_char]
        split
        · omega
        · omega
      by_cases h16 : (if string_size v + 1 > a then string_size v + 1 else a) < 16
      · have hr : string_reserve v a = v := by
          simp only [string_reserve]
          rw [if_pos h16, hp]
        rw [hr]
        refine ⟨rfl, rfl, ?_, ?_⟩
        · simp [m_str1ng_stack_p, hp, h16]
        · rw [if_pos h16, string_capacity, if_pos hst]
      · have hr : string_reserve v a =
            ⟨(m_le_encode8 (string_size v)).take 8 ++
              m_le_encode8 (if string_size v + 1 > a then string_size v + 1 else a),
             some (m_memread v.u (string_size v + 1))⟩ := by
          simp only [string_reserve]
          rw [if_neg h16, hp]
        have hal : (if string_size v + 1 > a then string_size v + 1 else a) < 2 ^ 64 := by
          split <;> omega
        obtain ⟨he1, he2, he3, he4⟩ := m_promote_eval v.u (string_size v)
          (if string_size v + 1 > a then string_size v + 1 else a) hsz14 hal
        rw [hr]
        refine ⟨?_, he1, ?_, ?_⟩
        · rw [he2, string_get_contents]
          rw [show string_get_cstr v = v.u from by rw [string_get_cstr, hp]]
        · rw [he3]
          simp [h16]
        · rw [he4, if_neg h16]
    · -- heap mode
      have hst : m_str1ng_stack_p v = false := by simp [m_str1ng_stack_p, hp]
      have hcstr : string_get_cstr v = buf := by rw [string_get_cstr, hp]
      have hszv : string_size v = m_le_decode (v.u.take 8) := by
        rw [string_size, if_neg (by simp [hst])]
      have hcap64 : string_capacity v < 2 ^ 64 := by
        have hall : ∀ x ∈ v.u.drop 8, x < 256 := by
          intro x hx
          have h := hwf
          simp only [m_string_wf, Bool.and_eq_true, beq_iff_eq, List.all_eq_true,
            decide_eq_true_eq] at h
          exact h.1.2 x (List.mem_of_mem_drop hx)
        have hd := m_le_decode_lt (v.u.drop 8) hall
        have hdl : (v.u.drop 8).length = 8 := by simp [hu]
        rw [hdl] at hd
        rw [string_capacity, if_neg (by simp [hst])]
        norm_num at hd
        omega
      by_cases h16 : (if string_size v + 1 > a then string_size v + 1 else a) < 16
      · -- demote
        have hr : string_reserve v a = m_str1ng_set_size
            ⟨m_memread buf (string_size v + 1) ++ v.u.drop (string_size v + 1), none⟩
            (string_size v) := by
          simp only [string_reserve]
          rw [if_pos h16, hp]
        have hsz15 : string_size v + 1 < 16 := by
          by_cases hca : string_size v + 1 > a
          · rw [if_pos hca] at h16
            exact h16
          · rw [if_neg hca] at h16
            omega
        have hlen : (m_memread buf (string_size v + 1) ++
            v.u.drop (string_size v + 1)).length = 16 := by
          rw [List.length_append, m_memread_length, List.length_drop, hu]
          omega
        obtain ⟨he1, he2, he3, he4⟩ := m_demote_eval buf (v.u.drop (string_size v + 1))
          (string_size v) (by omega) hlen
        rw [hr]
        refine ⟨?_, he1, ?_, ?_⟩
        · rw [he2, string_get_contents, hcstr]
        · rw [he3]
          simp [h16]
        · rw [he4, if_pos h16]
      · -- stay heap, exact reallocation
        have hr : string_reserve v a =
            ⟨v.u.take 8 ++
              m_le_encode8 (if string_size v + 1 > a then string_size v + 1 else a),
             some buf⟩ := by
          simp only [string_reserve]
          rw [if_neg h16, hp]
        have h8 : (v.u.take 8).length = 8 := by simp [hu]
        have hal : (if string_size v + 1 > a then string_size v + 1 else a) < 2 ^ 64 := by
          split <;> omega
        have hrsz : string_size ⟨v.u.take 8 ++
            m_le_encode8 (if string_size v + 1 > a then string_size v + 1 else a),
            some buf⟩ = string_size v := by
          rw [m_size_mk_heap2 _ _ _ h8]
          exact hszv.symm
        rw [hr]
        refine ⟨?_, hrsz, ?_, ?_⟩
        · rw [string_get_contents, hrsz]
          rw [show string_get_cstr ⟨v.u.take 8 ++
              m_le_encode8 (if string_size v + 1 > a then string_size v + 1 else a),
              some buf⟩ = buf from rfl]
          rw [string_get_contents, hcstr]
        · rw [show m_str1ng_stack_p ⟨v.u.take 8 ++
              m_le_encode8 (if string_size v + 1 > a then string_size v + 1 else a),
              some buf⟩ = false from rfl]
          simp [h16]
        · rw [m_capacity_mk_heap2 _ _ _ h8, m_le_decode_encode8,
              Nat.mod_eq_of_lt hal, if_neg h16]
  exact ⟨hmain.1, hmain.2.1, hmain.2.2.1, hmain.2.2.2, hno1, hno2, hno3⟩

/-- Witness for claim C7: reserving 5 bytes on a heap string of three
bytes with capacity 17 demotes it to the inline buffer, contents and
size intact, with the inline capacity 15. -/
theorem string_reserve_spec_witness :
    string_get_contents (string_reserve
        ⟨[3, 0, 0, 0, 0, 0, 0, 0, 17, 0, 0, 0, 0, 0, 0, 0], some [104, 105, 33, 0]⟩ 5) =
      string_get_contents
        ⟨[3, 0, 0, 0, 0, 0, 0, 0, 17, 0, 0, 0, 0, 0, 0, 0], some [104, 105, 33, 0]⟩ ∧
    string_size (string_reserve
        ⟨[3, 0, 0, 0, 0, 0, 0, 0, 17, 0, 0, 0, 0, 0, 0, 0], some [104, 105, 33, 0]⟩ 5) =
      string_size
        ⟨[3, 0, 0, 0, 0, 0, 0, 0, 17, 0, 0, 0, 0, 0, 0, 0], some [104, 105, 33, 0]⟩ ∧
    m_str1ng_stack_p (string_reserve
        ⟨[3, 0, 0, 0, 0, 0, 0, 0, 17, 0, 0, 0, 0, 0, 0, 0], some [104, 105, 33, 0]⟩ 5) =
      true ∧
    string_capacity (string_reserve
        ⟨[3, 0, 0, 0, 0, 0, 0, 0, 17, 0, 0, 0, 0, 0, 0, 0], some [104, 105, 33, 0]⟩ 5) =
      15 := by
  have h := string_reserve_spec
    ⟨[3, 0, 0, 0, 0, 0, 0, 0, 17, 0, 0, 0, 0, 0, 0, 0], some [104, 105, 33, 0]⟩ 5
    (by decide) (by decide) (by decide)
  exact ⟨h.1, h.2.1, h.2.2.1, h.2.2.2.1⟩
